import Mathlib

/-!
Verification of the mbsoeg reconciliation engine (Go sources under
cmd/mbsoeg/main.go, internal/storage/service.go, internal/embeddings/service.go,
pkg/models/mbs_item.go) against its natural-language specification.

Shallow embedding conventions:
* Go `uint64` values are `Nat` (bounds `< 2^64` carried as hypotheses where the
  source relies on them); `int` is `Int`; Go `string` is `String`.
* A Go `float64` is represented by its canonical Go `%v` rendering (the output
  of strconv.FormatFloat(f, 'g', -1, 64)).  That rendering is injective on
  float64 values (parsing the rendering returns the original float), so a
  float64 field is faithfully carried as the `String` it renders to; `%v`
  applied to such a field is the identity.  `GoFloat` is that representation.
* Fallible Go calls return `Except String _`; remote-transport failures are
  injected through an explicit oracle so theorems can quantify over them.
-/

/-- A Go float64, represented by its canonical `%v` rendering (see module
doc comment). -/
abbrev GoFloat := String

/-- A Go float32 appearing inside an embedding vector, likewise represented by
its rendering; embedding-vector contents are never inspected by the engine. -/
abbrev GoFloat32 := String

/-- pkg/models/mbs_item.go: the MBSItem record, field for field. -/
structure MBSItem where
  Anaes : Bool
  AnaesChange : Bool
  BasicUnits : Int
  Benefit100 : GoFloat
  Benefit75 : GoFloat
  Benefit85 : GoFloat
  BenefitChange : Bool
  BenefitStartDate : String
  BenefitType : String
  Category : String
  DerivedFee : GoFloat
  DerivedFeeStartDate : String
  Description : String
  DescriptionStartDate : String
  DescriptorChange : Bool
  EMSNCap : GoFloat
  EMSNChange : Bool
  EMSNChangeDate : String
  EMSNDescription : String
  EMSNEndDate : String
  EMSNFixedCapAmount : GoFloat
  EMSNMaximumCap : GoFloat
  EMSNPercentageCap : GoFloat
  EMSNStartDate : String
  FeeChange : Bool
  FeeStartDate : String
  FeeType : String
  Group : String
  ItemChange : Bool
  ItemEndDate : String
  ItemNum : String
  ItemStartDate : String
  ItemType : String
  NewItem : Bool
  ProviderType : String
  QFEEndDate : String
  QFEStartDate : String
  ScheduleFee : GoFloat
  SubGroup : String
  SubHeading : String
  SubItemNum : String
  deriving DecidableEq, Repr

/-- Go strconv.ParseUint(s, 10, 64): succeeds exactly on a nonempty string of
decimal digits (no sign, no underscores at base 10) whose value fits in 64
bits; Go reports a range error (and we return `none`) on overflow.  Stated
over the character list of the string. -/
def parseUint64 (s : String) : Option Nat :=
  if s.data.isEmpty then none
  else if s.data.all (fun c => c.isDigit) then
    let n := s.data.foldl (fun a c => a * 10 + (c.toNat - 48)) 0
    if n < 2 ^ 64 then some n else none
  else none

/-- A string is a canonical point identifier when it parses as a uint64 and
re-rendering that value (`fmt.Sprintf("%d", n)`, i.e. decimal `toString`)
gives the string back.  `"7"` is canonical; `"07"` parses to `7` but renders
back as `"7"`, so it is not. -/
def canonicalId (s : String) : Bool :=
  match parseUint64 s with
  | some n => toString n == s
  | none => false

namespace SHA256

/-! crypto/sha256, as used by storage.GenerateHash.  Words are `Nat`s reduced
mod `2^32`; the message is the UTF-8 byte sequence of the input string. -/

def M32 : Nat := 4294967296

def add32 (a b : Nat) : Nat := (a + b) % M32

def rotr (n x : Nat) : Nat := ((x >>> n) ||| (x <<< (32 - n))) % M32

def xor3 (a b c : Nat) : Nat := Nat.xor (Nat.xor a b) c

def not32 (x : Nat) : Nat := (M32 - 1) - x

def ch (x y z : Nat) : Nat := Nat.xor (Nat.land x y) (Nat.land (not32 x) z)

def maj (x y z : Nat) : Nat :=
  xor3 (Nat.land x y) (Nat.land x z) (Nat.land y z)

def bigSigma0 (x : Nat) : Nat := xor3 (rotr 2 x) (rotr 13 x) (rotr 22 x)

def bigSigma1 (x : Nat) : Nat := xor3 (rotr 6 x) (rotr 11 x) (rotr 25 x)

def smallSigma0 (x : Nat) : Nat := xor3 (rotr 7 x) (rotr 18 x) (x >>> 3)

def smallSigma1 (x : Nat) : Nat := xor3 (rotr 17 x) (rotr 19 x) (x >>> 10)

def K : Array Nat := #[
  1116352408, 1899447441, 3049323471, 3921009573, 961987163,
  1508970993, 2453635748, 2870763221, 3624381080, 310598401,
  607225278, 1426881987, 1925078388, 2162078206, 2614888103,
  3248222580, 3835390401, 4022224774, 264347078, 604807628,
  770255983, 1249150122, 1555081692, 1996064986, 2554220882,
  2821834349, 2952996808, 3210313671, 3336571891, 3584528711,
  113926993, 338241895, 666307205, 773529912, 1294757372,
  1396182291, 1695183700, 1986661051, 2177026350, 2456956037,
  2730485921, 2820302411, 3259730800, 3345764771, 3516065817,
  3600352804, 4094571909, 275423344, 430227734, 506948616,
  659060556, 883997877, 958139571, 1322822218, 1537002063,
  1747873779, 1955562222, 2024104815, 2227730452, 2361852424,
  2428436474, 2756734187, 3204031479, 3329325298]

def H0 : Array Nat := #[
  1779033703, 3144134277, 1013904242, 2773480762,
  1359893119, 2600822924, 528734635, 1541459225]

/-- UTF-8 encoding of one Unicode code point, as a list of bytes. -/
def encodeChar (c : Nat) : List Nat :=
  if c < 0x80 then [c]
  else if c < 0x800 then [0xc0 + c / 64, 0x80 + c % 64]
  else if c < 0x10000 then
    [0xe0 + c / 4096, 0x80 + c / 64 % 64, 0x80 + c % 64]
  else
    [0xf0 + c / 262144, 0x80 + c / 4096 % 64, 0x80 + c / 64 % 64, 0x80 + c % 64]

/-- UTF-8 bytes of a string. -/
def utf8Bytes (s : String) : List Nat :=
  s.data.foldr (fun c acc => encodeChar c.toNat ++ acc) []

/-- Big-endian bytes of `n`, `w` bytes wide. -/
def beBytes (w n : Nat) : List Nat :=
  (List.range w).map (fun i => n >>> (8 * (w - 1 - i)) % 256)

/-- SHA-256 padding: append 0x80, zero bytes to 56 mod 64, then the bit
length as a 64-bit big-endian integer. -/
def pad (msg : List Nat) : List Nat :=
  let len := msg.length
  let zeros := (55 + 64 - len % 64) % 64
  msg ++ 0x80 :: List.replicate zeros 0 ++ beBytes 8 (8 * len)

/-- Split a list into chunks of `k` elements (`k > 0`); fuel-indexed
structural recursion (each step consumes at least one element, so `l.length`
fuel always suffices). -/
def chunksAux (k : Nat) : Nat → List α → List (List α)
  | 0, _ => []
  | _, [] => []
  | fuel + 1, a :: rest =>
    (a :: rest).take k :: chunksAux k fuel ((a :: rest).drop k)

def chunks (k : Nat) (l : List α) : List (List α) :=
  chunksAux k l.length l

/-- Four big-endian bytes to a 32-bit word. -/
def word (b : List Nat) : Nat :=
  b.foldl (fun a x => a * 256 + x) 0

/-- One message-schedule extension step: append w[i] computed from
w[i-2], w[i-7], w[i-15], w[i-16] where i is the current length. -/
def scheduleStep (ws : Array Nat) : Array Nat :=
  let i := ws.size
  ws.push (add32 (add32 (smallSigma1 (ws[i - 2]!)) (ws[i - 7]!))
    (add32 (smallSigma0 (ws[i - 15]!)) (ws[i - 16]!)))

/-- Message schedule: extend the 16 block words by `n` further words. -/
def schedule : Nat → Array Nat → Array Nat
  | 0, ws => ws
  | n + 1, ws => schedule n (scheduleStep ws)

/-- One round of the compression function on state (a,b,c,d,e,f,g,h). -/
def round (ws : Array Nat) (st : Array Nat) (t : Nat) : Array Nat :=
  let a := st[0]!
  let b := st[1]!
  let c := st[2]!
  let d := st[3]!
  let e := st[4]!
  let f := st[5]!
  let g := st[6]!
  let h := st[7]!
  let t1 := add32 (add32 (add32 h (bigSigma1 e)) (add32 (ch e f g) (K[t]!)))
    (ws[t]!)
  let t2 := add32 (bigSigma0 a) (maj a b c)
  #[add32 t1 t2, a, b, c, add32 d t1, e, f, g]

/-- Compress one 64-byte block into the hash state. -/
def compress (hsh : Array Nat) (block : List Nat) : Array Nat :=
  let ws := schedule 48 ((chunks 4 block).toArray.map word)
  let st := (List.range 64).foldl (round ws) hsh
  (Array.range 8).map (fun i => add32 (hsh[i]!) (st[i]!))

/-- Hex rendering of one 32-bit word, eight lowercase hex digits. -/
def hex32 (n : Nat) : String :=
  String.mk (((List.range 8).map
    (fun i => Nat.digitChar (n >>> (4 * (7 - i)) % 16))))

/-- crypto/sha256 Sum256 followed by hex.EncodeToString. -/
def sumHex (s : String) : String :=
  let blocks := chunks 64 (pad (utf8Bytes s))
  let hsh := blocks.foldl compress H0
  String.join ((hsh.map hex32).toList)

end SHA256

/-- storage.GenerateHash, lines 62-74 of internal/storage/service.go: the
`%v-%v-%v-%v-%v-%v` concatenation of the six change-relevant fields (`%v` of a
string is the string, `%v` of a float64 is its canonical rendering, which is
how `GoFloat` fields are carried). -/
def descriptionContent (item : MBSItem) : String :=
  item.Description ++ "-" ++ item.Benefit100 ++ "-" ++ item.ScheduleFee ++ "-"
    ++ item.BenefitType ++ "-" ++ item.Category ++ "-" ++ item.ItemType

/-- storage.GenerateHash: SHA-256 of the concatenation, hex encoded. -/
def GenerateHash (item : MBSItem) : String :=
  SHA256.sumHex (descriptionContent item)

/-! ## The vector index (Qdrant) as seen through internal/storage/service.go -/

/-- A qdrant payload value, restricted to the kinds UpsertPoint produces
(strings, bools, doubles, integers); a double carries its rendering. -/
inductive QValue where
  | str (s : String)
  | boolV (b : Bool)
  | doubleV (r : GoFloat)
  | intV (i : Int)
  deriving DecidableEq, Repr

/-- A payload map; association list in insertion order, first binding wins. -/
abbrev Payload := List (String × QValue)

def Payload.lookup (p : Payload) (key : String) : Option QValue :=
  (p.find? (fun kv => kv.1 == key)).map (fun kv => kv.2)

/-- One stored point of the collection: numeric id (a Go uint64) plus payload.
The stored vector never influences the engine, so it is not carried. -/
structure IndexPoint where
  id : Nat
  payload : Payload
  deriving DecidableEq, Repr

/-- The collection state: its points.  Point ids are unique in a real
collection; theorems that need this carry a `Nodup` hypothesis. -/
abbrev Index := List IndexPoint

/-- Point lookup by id: the first point with the given id, if any. -/
def idxFind (idx : Index) (id : Nat) : Option IndexPoint :=
  idx.find? (fun p => p.id == id)

/-- Qdrant upsert-by-id: replace the point if the id is present, else append. -/
def upsertEntry (idx : Index) (id : Nat) (pl : Payload) : Index :=
  if idx.any (fun p => p.id == id) then
    idx.map (fun p => if p.id == id then ⟨id, pl⟩ else p)
  else idx ++ [⟨id, pl⟩]

/-- Qdrant delete-by-id: drop every point with the given id (idempotent,
succeeds also when the id is absent). -/
def deleteEntry (idx : Index) (id : Nat) : Index :=
  idx.filter (fun p => ¬ p.id = id)

/-- Remote-failure and provider oracles for one run.  Transport errors of
GetPoint / Upsert / Delete are injected per identifier (the engine retries
nothing, so one answer per identifier per run); `embed` is the embedding
provider, per text; `now` is the run's `time.Now().Format(time.RFC3339)`. -/
structure Oracles where
  lookupErr : String → Bool
  upsertErr : String → Bool
  deleteErr : String → Bool
  embed : String → Except String (List GoFloat32)
  now : String

/-- storage.GetPoint (service.go lines 77-113): parse the ItemNum as uint64
(error on failure), then fetch by numeric id; a transport error is an error;
an absent point is `ok none`; else the retrieved point. -/
def GetPoint (o : Oracles) (idx : Index) (itemNum : String) :
    Except String (Option IndexPoint) :=
  match parseUint64 itemNum with
  | none => .error ("error converting ItemNum " ++ itemNum ++ " to uint64")
  | some id =>
    if o.lookupErr itemNum then .error "failed to get point"
    else .ok (idxFind idx id)

/-- storage.UpsertPoint (service.go lines 116-172): parse the ItemNum as
uint64 (error on failure), then upsert the point wholesale (vector plus
payload replace any previous value); a transport error is an error. -/
def UpsertPoint (o : Oracles) (idx : Index) (itemNum : String)
    (pl : Payload) : Except String Index :=
  match parseUint64 itemNum with
  | none => .error ("error converting ItemNum " ++ itemNum ++ " to uint64")
  | some id =>
    if o.upsertErr itemNum then .error "upsert failed"
    else .ok (upsertEntry idx id pl)

/-- storage.DeletePoint (service.go lines 175-204): parse the ItemNum as
uint64 (error on failure), then delete by numeric id; a transport error is an
error. -/
def DeletePoint (o : Oracles) (idx : Index) (itemNum : String) :
    Except String Index :=
  match parseUint64 itemNum with
  | none => .error ("error converting ItemNum " ++ itemNum ++ " to uint64")
  | some id =>
    if o.deleteErr itemNum then .error "delete failed"
    else .ok (deleteEntry idx id)

/-! ## The embedding provider through internal/embeddings/service.go -/

structure EmbeddingData where
  embedding : List GoFloat32
  deriving DecidableEq, Repr

/-- The decoded OpenAI response body. -/
structure OpenAIResponse where
  data : List EmbeddingData
  deriving DecidableEq, Repr

/-- embeddings.GetEmbedding (service.go lines 35-78), from the point where the
HTTP response is available: `transport` is a client.Do failure, `status` the
HTTP status code, `parsed` the body decoded as OpenAIResponse (`none` when
json.Unmarshal fails).  Non-200 status, parse failure and an empty data list
are errors; otherwise the first embedding is returned as is — its length is
never examined. -/
def GetEmbedding (transport : Option String) (status : Nat)
    (parsed : Option OpenAIResponse) : Except String (List GoFloat32) :=
  match transport with
  | some e => .error ("failed to make request: " ++ e)
  | none =>
    if status ≠ 200 then .error "API request failed"
    else
      match parsed with
      | none => .error "failed to parse response"
      | some r =>
        match r.data with
        | [] => .error "no embedding data in response"
        | d :: _ => .ok d.embedding

/-! ## One reconciliation run (the /process handler of cmd/mbsoeg/main.go)

The handler's change-planning loop marks every incoming ItemNum in
`currentItems` before its point lookup, and each item's classification reads
only the pre-run index (upserts land after planning in CLI mode; in server
mode concurrent upserts touch other ids only, up to identifier aliasing, which
the theorems below exclude where it matters).  The per-item decisions are
therefore independent and the loop is embedded compositionally: one
classification function, folded over the batch. -/

/-- models.EmbeddingJob. -/
structure EmbeddingJob where
  ItemNum : String
  Text : String
  Item : MBSItem
  NewHash : String
  deriving DecidableEq, Repr

/-- models.EmbeddingResult (the Vector is empty on error, as GetEmbedding
returns a nil slice alongside its error). -/
structure EmbeddingResult where
  ItemNum : String
  Vector : List GoFloat32
  Item : MBSItem
  NewHash : String
  Error : Option String
  deriving DecidableEq, Repr

/-- The text handed to the provider: `fmt.Sprintf("MBS Item %s: %s", ...)`. -/
def jobText (item : MBSItem) : String :=
  "MBS Item " ++ item.ItemNum ++ ": " ++ item.Description

/-- The three outcomes of the change-planning loop body for one item
(main.go lines 248-285): the point lookup failed (logged, `continue`); the
stored `_hash` is a string equal to the fresh hash (skipped); or a job is
queued (new point, differing hash, or `_hash` absent / not a string). -/
inductive PlanOutcome where
  | lookupFailed
  | unchanged
  | job (j : EmbeddingJob)
  deriving DecidableEq, Repr

/-- Classification of one incoming item against the pre-run index. -/
def planOne (o : Oracles) (idx : Index) (item : MBSItem) : PlanOutcome :=
  let descHash := GenerateHash item
  match GetPoint o idx item.ItemNum with
  | .error _ => .lookupFailed
  | .ok found =>
    let mkJob : PlanOutcome :=
      .job ⟨item.ItemNum, jobText item, item, descHash⟩
    match found with
    | none => mkJob
    | some point =>
      match point.payload.lookup "_hash" with
      | some (QValue.str h) => if h = descHash then .unchanged else mkJob
      | _ => mkJob
  
/-- The job an item contributes to the queue, when its classification is a
job. -/
def planSelect (o : Oracles) (idx : Index) (item : MBSItem) :
    Option EmbeddingJob :=
  match planOne o idx item with
  | .job j => some j
  | _ => none

/-- The jobs queued by the change-planning loop, in batch order. -/
def planJobs (o : Oracles) (idx : Index) (batch : List MBSItem) :
    List EmbeddingJob :=
  batch.filterMap (planSelect o idx)

/-- The skipped (unchanged) count accumulated by the loop. -/
def planSkipped (o : Oracles) (idx : Index) (batch : List MBSItem) : Nat :=
  batch.countP (fun item => planOne o idx item = PlanOutcome.unchanged)

/-- One worker iteration (main.go lines 230-243): call the provider once and
emit exactly one Result for the consumed Job, success or failure. -/
def runWorker (o : Oracles) (j : EmbeddingJob) : EmbeddingResult :=
  match o.embed j.Text with
  | .ok v => ⟨j.ItemNum, v, j.Item, j.NewHash, none⟩
  | .error e => ⟨j.ItemNum, [], j.Item, j.NewHash, some e⟩

/-- The payload the reconciler builds for a successful Result (main.go lines
299-346), key for key in source order; Go-value kinds follow UpsertPoint's
conversion switch (string, bool, float64, int). -/
def buildPayload (o : Oracles) (r : EmbeddingResult) : Payload :=
  [("_hash", QValue.str r.NewHash),
   ("_last_check", QValue.str o.now),
   ("item_num", QValue.str r.Item.ItemNum),
   ("description", QValue.str r.Item.Description),
   ("new_item", QValue.boolV r.Item.NewItem),
   ("item_change", QValue.boolV r.Item.ItemChange),
   ("fee_change", QValue.boolV r.Item.FeeChange),
   ("benefit_change", QValue.boolV r.Item.BenefitChange),
   ("anaes_change", QValue.boolV r.Item.AnaesChange),
   ("emsn_change", QValue.boolV r.Item.EMSNChange),
   ("descriptor_change", QValue.boolV r.Item.DescriptorChange),
   ("anaes", QValue.boolV r.Item.Anaes),
   ("item_start_date", QValue.str r.Item.ItemStartDate),
   ("item_end_date", QValue.str r.Item.ItemEndDate),
   ("fee_start_date", QValue.str r.Item.FeeStartDate),
   ("benefit_start_date", QValue.str r.Item.BenefitStartDate),
   ("description_start_date", QValue.str r.Item.DescriptionStartDate),
   ("emsn_start_date", QValue.str r.Item.EMSNStartDate),
   ("emsn_end_date", QValue.str r.Item.EMSNEndDate),
   ("qfe_start_date", QValue.str r.Item.QFEStartDate),
   ("qfe_end_date", QValue.str r.Item.QFEEndDate),
   ("derived_fee_start_date", QValue.str r.Item.DerivedFeeStartDate),
   ("emsn_change_date", QValue.str r.Item.EMSNChangeDate),
   ("schedule_fee", QValue.doubleV r.Item.ScheduleFee),
   ("derived_fee", QValue.doubleV r.Item.DerivedFee),
   ("benefit_75", QValue.doubleV r.Item.Benefit75),
   ("benefit_85", QValue.doubleV r.Item.Benefit85),
   ("benefit_100", QValue.doubleV r.Item.Benefit100),
   ("emsn_percentage_cap", QValue.doubleV r.Item.EMSNPercentageCap),
   ("emsn_maximum_cap", QValue.doubleV r.Item.EMSNMaximumCap),
   ("emsn_fixed_cap_amount", QValue.doubleV r.Item.EMSNFixedCapAmount),
   ("emsn_cap", QValue.doubleV r.Item.EMSNCap),
   ("basic_units", QValue.intV r.Item.BasicUnits),
   ("category", QValue.str r.Item.Category),
   ("group", QValue.str r.Item.Group),
   ("sub_group", QValue.str r.Item.SubGroup),
   ("sub_heading", QValue.str r.Item.SubHeading),
   ("item_type", QValue.str r.Item.ItemType),
   ("sub_item_num", QValue.str r.Item.SubItemNum),
   ("benefit_type", QValue.str r.Item.BenefitType),
   ("fee_type", QValue.str r.Item.FeeType),
   ("provider_type", QValue.str r.Item.ProviderType),
   ("emsn_description", QValue.str r.Item.EMSNDescription)]

/-- The reconciler's handling of one Result (main.go lines 290-356): an
errored Result is logged and skipped; otherwise UpsertPoint is invoked, whose
failure is logged and skipped; success produces the stored upsert.  Whether
the upsert succeeds depends only on the identifier and the oracle, so the
successful upserts of a result list are a filterMap. -/
def resultUpsert (o : Oracles) (r : EmbeddingResult) :
    Option (Nat × List GoFloat32 × Payload) :=
  match r.Error with
  | some _ => none
  | none =>
    match parseUint64 r.ItemNum with
    | none => none
    | some id =>
      if o.upsertErr r.ItemNum then none
      else some (id, r.Vector, buildPayload o r)

/-- Apply a list of successful upserts to the index, in order. -/
def applyUpserts (idx : Index) (ups : List (Nat × List GoFloat32 × Payload)) :
    Index :=
  ups.foldl (fun acc u => upsertEntry acc u.1 u.2.2) idx

/-- The stale-identifier deletion pass (main.go lines 362-373): walk the
pre-run snapshot; a point whose rendered id (`fmt.Sprintf("%d", ...)`) is not
marked in `currentItems` is deleted; DeletePoint failures are logged and not
counted.  Returns the ids successfully deleted, in snapshot order. -/
def staleStep (o : Oracles) (current : List String) (p : IndexPoint) :
    Option Nat :=
  if current.contains (toString p.id) then none
  else
    match parseUint64 (toString p.id) with
    | none => none
    | some id => if o.deleteErr (toString p.id) then none else some id

def staleDeletes (o : Oracles) (snapshot : List IndexPoint)
    (current : List String) : List Nat :=
  snapshot.filterMap (staleStep o current)

/-- Remove the deleted ids from the index. -/
def applyDeletes (idx : Index) (dels : List Nat) : Index :=
  dels.foldl deleteEntry idx

/-- Everything one run produces. -/
structure RunOutcome where
  skipped : Nat
  updated : Nat
  removed : Nat
  jobs : List EmbeddingJob
  results : List EmbeddingResult
  upserts : List (Nat × List GoFloat32 × Payload)
  deletes : List Nat
  finalIndex : Index
  processed : Nat
  deriving Repr

/-- One `/process` run (main.go lines 207-391) over pre-run index `idx0`.

The snapshot handed to the deletion pass is the index's own point list (the
intended, complete result of ScrollPoints; its pagination is modelled and
examined separately below).

`k` models the scheduling of the reconciler goroutine: the handler closes the
results channel after `wg.Wait()` and immediately runs the deletion pass and
reads `updatedCount` for the summary, without joining the goroutine that
consumes `resultsChan`; `k` is the number of Results that goroutine had
consumed by then.  The reported `updated` counts successful upserts among the
first `k` Results; the deletion pass runs against the index holding those
upserts, and the remaining Results land after it.  CLI mode and a fair
schedule correspond to `k ≥ results.length`. -/
def runProcess (o : Oracles) (idx0 : Index) (batch : List MBSItem) (k : Nat) :
    RunOutcome :=
  let current := batch.map (fun item => item.ItemNum)
  let jobs := planJobs o idx0 batch
  let skipped := planSkipped o idx0 batch
  let results := jobs.map (runWorker o)
  let upsA := (results.take k).filterMap (resultUpsert o)
  let upsB := (results.drop k).filterMap (resultUpsert o)
  let dels := staleDeletes o idx0 current
  let idx1 := applyUpserts idx0 upsA
  let idx2 := applyDeletes idx1 dels
  let idx3 := applyUpserts idx2 upsB
  { skipped := skipped
    updated := upsA.length
    removed := dels.length
    jobs := jobs
    results := results
    upserts := upsA ++ upsB
    deletes := dels
    finalIndex := idx3
    processed := batch.length }

/-! ## ScrollPoints pagination (internal/storage/service.go lines 207-245)

Qdrant's scroll contract: points are served in ascending id order; a request
with offset `off` returns up to `limit` points with id ≥ `off`, and
`next_page_offset` is the id of the first point after the returned page, or
absent when the page exhausted the collection.  The collection is a list of
points sorted by ascending id. -/

structure ScrollResp where
  result : List IndexPoint
  nextPageOffset : Option Nat
  deriving DecidableEq, Repr

/-- One scroll request against collection `pts` (sorted by id). -/
def scrollPage (pts : List IndexPoint) (offset : Option Nat) (limit : Nat) :
    ScrollResp :=
  let rem := match offset with
    | none => pts
    | some off => pts.filter (fun p => off ≤ p.id)
  ⟨rem.take limit, ((rem.drop limit).head?).map (fun p => p.id)⟩

/-- The ScrollPoints loop, fuel-indexed because the source loop need not
terminate: `none` means the loop is still running after `fuel` iterations.
Body, faithfully: empty page → stop; append the page; short page → stop; else
continue from the response's next offset (which the source uses even when it
is absent, restarting from the beginning). -/
def scrollLoop (pts : List IndexPoint) (fuel : Nat) (offset : Option Nat)
    (acc : List IndexPoint) : Option (List IndexPoint) :=
  match fuel with
  | 0 => none
  | fuel + 1 =>
    let resp := scrollPage pts offset 100
    if resp.result.isEmpty then some acc
    else
      let acc2 := acc ++ resp.result
      if resp.result.length < 100 then some acc2
      else scrollLoop pts fuel resp.nextPageOffset acc2

/-- storage.ScrollPoints: scroll from the start with limit 100. -/
def ScrollPoints (pts : List IndexPoint) (fuel : Nat) :
    Option (List IndexPoint) :=
  scrollLoop pts fuel none []

/-! ## Concrete fixtures used by counterexamples and witnesses -/

/-- An MBSItem with every field blank/zero; fixtures override fields. -/
def blankItem : MBSItem :=
  { Anaes := false, AnaesChange := false, BasicUnits := 0, Benefit100 := "0",
    Benefit75 := "0", Benefit85 := "0", BenefitChange := false,
    BenefitStartDate := "", BenefitType := "", Category := "",
    DerivedFee := "0", DerivedFeeStartDate := "", Description := "",
    DescriptionStartDate := "", DescriptorChange := false, EMSNCap := "0",
    EMSNChange := false, EMSNChangeDate := "", EMSNDescription := "",
    EMSNEndDate := "", EMSNFixedCapAmount := "0", EMSNMaximumCap := "0",
    EMSNPercentageCap := "0", EMSNStartDate := "", FeeChange := false,
    FeeStartDate := "", FeeType := "", Group := "", ItemChange := false,
    ItemEndDate := "", ItemNum := "", ItemStartDate := "", ItemType := "",
    NewItem := false, ProviderType := "", QFEEndDate := "",
    QFEStartDate := "", ScheduleFee := "0", SubGroup := "", SubHeading := "",
    SubItemNum := "" }

/-- Oracles for a run with no remote failures: every transport call succeeds
and the provider returns a fixed one-element vector. -/
def oraclesOK : Oracles :=
  { lookupErr := fun _ => false, upsertErr := fun _ => false,
    deleteErr := fun _ => false, embed := fun _ => Except.ok ["0.5"],
    now := "2025-01-01T00:00:00Z" }

/-- A fresh item with canonical identifier "1". -/
def itemOne : MBSItem := { blankItem with ItemNum := "1", Description := "d1" }

/-- An item whose identifier "07" parses to point id 7 but renders back as
"7": a non-canonical identifier. -/
def itemOhSeven : MBSItem :=
  { blankItem with ItemNum := "07", Description := "d7" }

/-- An item with a missing (empty) identifier: ParseUint rejects "". -/
def itemNoId : MBSItem := { blankItem with Description := "bad" }

/-- A stored point with id 7 and no payload (in particular no `_hash`). -/
def pointSeven : IndexPoint := ⟨7, []⟩

/-- InitializeCollection (service.go lines 41-59) configures the collection
with this fixed vector size. -/
def collectionVectorSize : Nat := 1536

/-- Items witnessing the separator ambiguity of descriptionContent: the six
change-relevant fields are joined with "-" and nothing is escaped, so
BenefitType "b-c" with empty Category reads the same as BenefitType "b" with
Category "c-". -/
def itemBC : MBSItem :=
  { blankItem with
    Description := "a", Benefit100 := "1", ScheduleFee := "2",
    BenefitType := "b-c", Category := "", ItemType := "" }

def itemBCdash : MBSItem :=
  { blankItem with
    Description := "a", Benefit100 := "1", ScheduleFee := "2",
    BenefitType := "b", Category := "c-", ItemType := "" }

/-- A provider response whose single embedding has 2 components, not 1536. -/
def respDim2 : OpenAIResponse := ⟨[⟨["0.1", "0.2"]⟩]⟩

/-- Failure-free oracles whose provider answers with the 2-component vector
of `respDim2`, exactly as GetEmbedding hands it on. -/
def oraclesDim2 : Oracles :=
  { oraclesOK with embed := fun _ => GetEmbedding none 200 (some respDim2) }

/-- Failure-free oracles except that the point lookup for identifier "07"
fails with a transport error. -/
def oraclesLookup07 : Oracles :=
  { oraclesOK with lookupErr := fun s => s == "07" }

/-- A collection holding exactly 100 points (ids 0..99): one full scroll page
with no continuation offset. -/
def entries100 : Index := (List.range 100).map (fun i => ⟨i, []⟩)

/-! ## C1 -/

/-- C1: the claim that every emitted Job yields a consumed Result before
stale-identifier deletions are processed, with the reported updated count
reflecting all successful Results, FAILS in server mode: runServer closes the
results channel after `wg.Wait()` and immediately runs the deletion pass and
reads `updatedCount`, without joining the goroutine that consumes
`resultsChan`.  Under the schedule where that goroutine has consumed `k = 0`
Results, a run of one new item with a successful embedding reports
`updated = 0` although one successful Result exists and deletions have
already been processed; under `k = 1` the same run reports `updated = 1`. -/
theorem C1_server_summary_race :
    (runProcess oraclesOK [] [itemOne] 0).updated = 0
    ∧ (runProcess oraclesOK [] [itemOne] 0).results.countP
        (fun r => r.Error.isNone) = 1
    ∧ (runProcess oraclesOK [] [itemOne] 1).updated = 1 := by
  refine ⟨by decide, by decide, by decide⟩

/-! ## C3 -/

/-- C3, counterexample: two records that differ in the change-relevant field
BenefitType ("b-c" versus "b") but have identical fingerprints, because the
dash-joined concatenation of the six fields coincides ("a-1-2-b-c--"). -/
theorem C3_counterexample :
    itemBC.BenefitType ≠ itemBCdash.BenefitType
    ∧ GenerateHash itemBC = GenerateHash itemBCdash :=
  ⟨by decide, congrArg SHA256.sumHex (by decide)⟩

/-- C3, amended: two records that agree on all six change-relevant fields
(Description, Benefit100, ScheduleFee, BenefitType, Category, ItemType)
always produce identical fingerprints, whatever their other fields; the
converse — a difference in a change-relevant field always changing the
fingerprint — fails because the fields are joined with "-" unescaped. -/
theorem C3_fields_determine_hash (a b : MBSItem)
    (h1 : a.Description = b.Description) (h2 : a.Benefit100 = b.Benefit100)
    (h3 : a.ScheduleFee = b.ScheduleFee) (h4 : a.BenefitType = b.BenefitType)
    (h5 : a.Category = b.Category) (h6 : a.ItemType = b.ItemType) :
    GenerateHash a = GenerateHash b := by
  unfold GenerateHash descriptionContent
  rw [h1, h2, h3, h4, h5, h6]

/-- C3, witness: records differing only in the non-relevant Group field have
equal fingerprints. -/
theorem C3_fields_determine_hash_witness :
    GenerateHash blankItem = GenerateHash { blankItem with Group := "g" } :=
  C3_fields_determine_hash _ _ rfl rfl rfl rfl rfl rfl

/-! ## C5 -/

/-- C5, counterexample: a provider vector of 2 components (≠ the index's
configured 1536) is NOT surfaced as a per-job error: GetEmbedding returns it
as is, the Result's Error is nil, and the reconciler attempts the upsert of
that very vector. -/
theorem C5_counterexample :
    GetEmbedding none 200 (some respDim2) = Except.ok ["0.1", "0.2"]
    ∧ (["0.1", "0.2"] : List GoFloat32).length ≠ collectionVectorSize
    ∧ (runProcess oraclesDim2 [] [itemOne] 1).results.map
        (fun r => r.Error) = [none]
    ∧ (runProcess oraclesDim2 [] [itemOne] 1).upserts.map
        (fun u => u.2.1) = [["0.1", "0.2"]] :=
  ⟨rfl, by decide, by decide, by decide⟩

/-- C5, amended: the engine never checks dimensionality.  Whenever the
provider call succeeds at transport level with HTTP 200 and a well-formed,
non-empty response, GetEmbedding returns the first embedding unchanged,
whatever its length; a mismatch with the index's configured size can only
surface later as an index-side upsert error (logged, excluded from the
updated count), never as a Result error. -/
theorem C5_no_dimension_check (r : OpenAIResponse) (d : EmbeddingData)
    (rest : List EmbeddingData) (h : r.data = d :: rest) :
    GetEmbedding none 200 (some r) = Except.ok d.embedding := by
  unfold GetEmbedding
  simp [h]

/-- C5, witness for the amended theorem at the 2-component response. -/
theorem C5_no_dimension_check_witness :
    GetEmbedding none 200 (some respDim2) = Except.ok ["0.1", "0.2"] :=
  C5_no_dimension_check respDim2 ⟨["0.1", "0.2"]⟩ [] rfl

/-! ## C7 -/

/-- C7: for every batch (including the empty one), every pre-run index, every
oracle and every reconciler schedule, the worker pool produces exactly one
Result per queued Job: the result list and the job list have equal length. -/
theorem C7_one_result_per_job (o : Oracles) (idx : Index)
    (batch : List MBSItem) (k : Nat) :
    (runProcess o idx batch k).results.length
      = (runProcess o idx batch k).jobs.length := by
  simp [runProcess]

/-! ## C9 -/

/-- The first scroll page of a 100-point collection: all 100 points and no
continuation offset (the page exhausts the collection exactly). -/
theorem scrollPage_entries100 : scrollPage entries100 none 100
    = ⟨entries100, none⟩ := by
  decide

/-- C9: ScrollPoints does NOT terminate on every collection: with exactly 100
points the page is full, so the short-page exit is not taken, and the loop
continues from the absent continuation offset — restarting from the
beginning.  No amount of fuel makes the loop return. -/
theorem C9_scroll_diverges_on_100 : ∀ fuel acc,
    scrollLoop entries100 fuel none acc = none := by
  intro fuel
  induction fuel with
  | zero => intro acc; rfl
  | succ n ih =>
    intro acc
    show scrollLoop entries100 (n + 1) none acc = none
    rw [scrollLoop, scrollPage_entries100]
    simp only
    rw [if_neg (by decide), if_neg (by decide)]
    exact ih _

/-- ScrollPoints is, by contrast, complete and terminating on collections of
fewer than 100 points: one page suffices and every point is returned. -/
theorem scrollPoints_complete_small (pts : List IndexPoint)
    (h : pts.length < 100) : ScrollPoints pts 1 = some pts := by
  unfold ScrollPoints scrollLoop scrollPage
  simp only [List.take_of_length_le (Nat.le_of_lt h)]
  by_cases hp : pts.isEmpty
  · rw [if_pos hp]
    rw [List.isEmpty_iff] at hp
    rw [hp]
  · rw [if_neg hp, if_pos h]
    simp

/-! ## Decimal rendering: `fmt.Sprintf("%d", n)` round-trips through ParseUint

`toString (n : Nat)` is core's `Nat.repr`, built by `Nat.toDigitsCore`; the
lemmas below show that for `n < 2^64` the rendered string parses back to `n`
under the ParseUint model. -/

/-- The value the ParseUint fold reads off a character list, starting at
accumulator `a`. -/
def listVal (a : Nat) (cs : List Char) : Nat :=
  cs.foldl (fun x c => x * 10 + (c.toNat - 48)) a

theorem listVal_cons (a : Nat) (c : Char) (cs : List Char) :
    listVal a (c :: cs) = listVal (a * 10 + (c.toNat - 48)) cs := rfl

theorem digitChar_isDigit (d : Nat) (h : d < 10) :
    (Nat.digitChar d).isDigit = true := by
  interval_cases d <;> decide

theorem digitChar_toNat (d : Nat) (h : d < 10) :
    (Nat.digitChar d).toNat = 48 + d := by
  interval_cases d <;> decide

theorem toDigitsCore_val : ∀ (fuel n : Nat) (acc : List Char), n < fuel →
    listVal 0 (Nat.toDigitsCore 10 fuel n acc) = listVal n acc := by
  intro fuel
  induction fuel with
  | zero => intro n acc h; omega
  | succ f ih =>
    intro n acc h
    simp only [Nat.toDigitsCore]
    by_cases h0 : n / 10 = 0
    · rw [if_pos h0, listVal_cons,
        digitChar_toNat (n % 10) (Nat.mod_lt n (by omega))]
      have hn : n % 10 = n := Nat.mod_eq_of_lt (by omega)
      simp [hn]
    · rw [if_neg h0]
      have hpos : 0 < n := by
        rcases Nat.eq_zero_or_pos n with h2 | h2
        · subst h2; simp at h0
        · exact h2
      have hlt : n / 10 < f := by
        have h3 : n / 10 < n := Nat.div_lt_self hpos (by omega)
        omega
      rw [ih (n / 10) _ hlt, listVal_cons,
        digitChar_toNat (n % 10) (Nat.mod_lt n (by omega))]
      have : n / 10 * 10 + (48 + n % 10 - 48) = n := by omega
      rw [this]

theorem toDigitsCore_digits : ∀ (fuel n : Nat) (acc : List Char),
    n < fuel → (Nat.toDigitsCore 10 fuel n acc).all (fun c => c.isDigit)
      = acc.all (fun c => c.isDigit) := by
  intro fuel
  induction fuel with
  | zero => intro n acc h; omega
  | succ f ih =>
    intro n acc h
    simp only [Nat.toDigitsCore]
    by_cases h0 : n / 10 = 0
    · rw [if_pos h0, List.all_cons,
        digitChar_isDigit (n % 10) (Nat.mod_lt n (by omega)), Bool.true_and]
    · rw [if_neg h0]
      have hpos : 0 < n := by
        rcases Nat.eq_zero_or_pos n with h2 | h2
        · subst h2; simp at h0
        · exact h2
      have hlt : n / 10 < f := by
        have h3 : n / 10 < n := Nat.div_lt_self hpos (by omega)
        omega
      rw [ih (n / 10) _ hlt, List.all_cons,
        digitChar_isDigit (n % 10) (Nat.mod_lt n (by omega)), Bool.true_and]

theorem toDigitsCore_ne_nil : ∀ (fuel n : Nat) (acc : List Char),
    n < fuel → Nat.toDigitsCore 10 fuel n acc ≠ [] := by
  intro fuel
  induction fuel with
  | zero => intro n acc h; omega
  | succ f ih =>
    intro n acc h
    simp only [Nat.toDigitsCore]
    by_cases h0 : n / 10 = 0
    · rw [if_pos h0]; exact List.cons_ne_nil _ _
    · rw [if_neg h0]
      have hpos : 0 < n := by
        rcases Nat.eq_zero_or_pos n with h2 | h2
        · subst h2; simp at h0
        · exact h2
      have hlt : n / 10 < f := by
        have h3 : n / 10 < n := Nat.div_lt_self hpos (by omega)
        omega
      exact ih (n / 10) _ hlt

theorem toString_nat_data (n : Nat) :
    (toString n).data = Nat.toDigitsCore 10 (n + 1) n [] := rfl

/-- The decimal rendering of a uint64 value parses back to the value. -/
theorem parseUint64_toString (n : Nat) (h : n < 2 ^ 64) :
    parseUint64 (toString n) = some n := by
  have h1 := toDigitsCore_ne_nil (n + 1) n [] (by omega)
  have h2 := toDigitsCore_digits (n + 1) n [] (by omega)
  have h3 := toDigitsCore_val (n + 1) n [] (by omega)
  unfold parseUint64
  rw [toString_nat_data]
  rw [if_neg (by simp [List.isEmpty_iff, h1])]
  rw [if_pos (by rw [h2]; rfl)]
  simp only [listVal] at h3
  rw [show (Nat.toDigitsCore 10 (n + 1) n []).foldl
    (fun a c => a * 10 + (c.toNat - 48)) 0 = n from h3]
  rw [if_pos h]

/-- ParseUint only ever returns values below `2^64`. -/
theorem parseUint64_lt {s : String} {n : Nat} (h : parseUint64 s = some n) :
    n < 2 ^ 64 := by
  unfold parseUint64 at h
  split at h
  · exact absurd h (by simp)
  · split at h
    · dsimp only at h
      split at h
      · next hlt => injection h with h2; rw [h2] at hlt; exact hlt
      · exact absurd h (by simp)
    · exact absurd h (by simp)

/-- A canonical identifier is the decimal rendering of its parsed value. -/
theorem canonicalId_parse {s : String} (h : canonicalId s = true) :
    ∃ n, parseUint64 s = some n ∧ toString n = s ∧ n < 2 ^ 64 := by
  unfold canonicalId at h
  split at h
  · next n heq =>
    exact ⟨n, heq, by simpa using h, parseUint64_lt heq⟩
  · exact absurd h (by simp)

/-- A rendered uint64 id never equals a string ParseUint rejects. -/
theorem toString_ne_of_parse_none {s : String} {n : Nat} (hn : n < 2 ^ 64)
    (h : parseUint64 s = none) : ¬ toString n = s := by
  intro he
  rw [← he, parseUint64_toString n hn] at h
  exact Option.noConfusion h

/-- Decimal rendering is injective on uint64 values. -/
theorem toString_nat_inj {m n : Nat} (hm : m < 2 ^ 64) (hn : n < 2 ^ 64)
    (h : toString m = toString n) : m = n := by
  have := parseUint64_toString m hm
  rw [h, parseUint64_toString n hn] at this
  exact (Option.some_inj.mp this).symm

/-! ## Index lemmas: how idxFind and membership move through upserts and
deletes -/

theorem idxFind_map_replace_self (id : Nat) (pl : Payload) :
    ∀ idx : Index, idx.any (fun p => p.id == id) = true →
      (idx.map (fun p => if p.id == id then ⟨id, pl⟩ else p)).find?
        (fun p => p.id == id) = some ⟨id, pl⟩ := by
  intro idx
  induction idx with
  | nil => intro h; simp at h
  | cons q rest ih =>
    intro h
    by_cases hq : q.id = id
    · rw [List.map_cons, if_pos (by simpa using hq)]
      exact List.find?_cons_of_pos _ (by simp)
    · have h2 : rest.any (fun p => p.id == id) = true := by
        simpa [hq] using h
      rw [List.map_cons, if_neg (by simpa using hq)]
      rw [List.find?_cons_of_neg _ (by simpa using hq)]
      exact ih h2

theorem idxFind_map_replace_ne (id id2 : Nat) (pl : Payload) (h2 : id2 ≠ id) :
    ∀ idx : Index,
      (idx.map (fun p => if p.id == id then ⟨id, pl⟩ else p)).find?
        (fun p => p.id == id2) = idxFind idx id2 := by
  intro idx
  induction idx with
  | nil => rfl
  | cons q rest ih =>
    unfold idxFind
    by_cases hq : q.id = id
    · rw [List.map_cons, if_pos (by simpa using hq)]
      rw [List.find?_cons_of_neg _ (by simp; omega)]
      rw [List.find?_cons_of_neg _ (by simp [hq]; omega)]
      exact ih
    · rw [List.map_cons, if_neg (by simpa using hq)]
      by_cases hq2 : q.id = id2
      · rw [List.find?_cons_of_pos _ (by simp [hq2])]
        rw [List.find?_cons_of_pos _ (by simp [hq2])]
      · rw [List.find?_cons_of_neg _ (by simpa using hq2)]
        rw [List.find?_cons_of_neg _ (by simpa using hq2)]
        exact ih

theorem idxFind_upsertEntry_self (idx : Index) (id : Nat) (pl : Payload) :
    idxFind (upsertEntry idx id pl) id = some ⟨id, pl⟩ := by
  unfold upsertEntry
  by_cases h : idx.any (fun p => p.id == id) = true
  · rw [if_pos h]
    exact idxFind_map_replace_self id pl idx h
  · rw [if_neg h]
    have hnone : idx.find? (fun p => p.id == id) = none := by
      rw [List.find?_eq_none]
      intro q hq hpred
      rw [List.any_eq_true] at h
      exact h ⟨q, hq, hpred⟩
    unfold idxFind
    rw [List.find?_append, hnone]
    simp

theorem idxFind_upsertEntry_ne (idx : Index) (id id2 : Nat) (pl : Payload)
    (h : id2 ≠ id) : idxFind (upsertEntry idx id pl) id2 = idxFind idx id2 := by
  unfold upsertEntry
  by_cases ha : idx.any (fun p => p.id == id) = true
  · rw [if_pos ha]
    exact idxFind_map_replace_ne id id2 pl h idx
  · rw [if_neg ha]
    unfold idxFind
    rw [List.find?_append]
    have hone : List.find? (fun p => p.id == id2)
        ([⟨id, pl⟩] : Index) = none := by
      simp
      omega
    rw [hone]
    simp

theorem applyUpserts_cons (idx : Index) (u : Nat × List GoFloat32 × Payload)
    (ups : List (Nat × List GoFloat32 × Payload)) :
    applyUpserts idx (u :: ups) = applyUpserts (upsertEntry idx u.1 u.2.2) ups
    := rfl

theorem applyUpserts_append (idx : Index)
    (l1 l2 : List (Nat × List GoFloat32 × Payload)) :
    applyUpserts idx (l1 ++ l2) = applyUpserts (applyUpserts idx l1) l2 := by
  unfold applyUpserts
  rw [List.foldl_append]

theorem idxFind_applyUpserts_not_mem
    (ups : List (Nat × List GoFloat32 × Payload)) :
    ∀ (idx : Index) (id : Nat), id ∉ ups.map (fun u => u.1) →
      idxFind (applyUpserts idx ups) id = idxFind idx id := by
  induction ups with
  | nil => intro idx id h; rfl
  | cons u rest ih =>
    intro idx id h
    simp only [List.map_cons, List.mem_cons, not_or] at h
    rw [applyUpserts_cons, ih _ _ h.2, idxFind_upsertEntry_ne _ _ _ _ h.1]

theorem idxFind_applyUpserts_last (u : Nat × List GoFloat32 × Payload)
    (L1 L2 : List (Nat × List GoFloat32 × Payload)) (idx : Index)
    (h : u.1 ∉ L2.map (fun v => v.1)) :
    idxFind (applyUpserts idx (L1 ++ u :: L2)) u.1 = some ⟨u.1, u.2.2⟩ := by
  rw [applyUpserts_append, applyUpserts_cons,
    idxFind_applyUpserts_not_mem L2 _ _ h]
  exact idxFind_upsertEntry_self _ _ _

theorem applyDeletes_cons (idx : Index) (d : Nat) (dels : List Nat) :
    applyDeletes idx (d :: dels) = applyDeletes (deleteEntry idx d) dels := rfl

theorem idxFind_deleteEntry_self (idx : Index) (d : Nat) :
    idxFind (deleteEntry idx d) d = none := by
  unfold idxFind deleteEntry
  rw [List.find?_eq_none]
  intro q hq hpred
  rw [List.mem_filter] at hq
  have h1 : q.id = d := by simpa using hpred
  have h2 : ¬ q.id = d := by simpa using hq.2
  exact h2 h1

theorem idxFind_deleteEntry_ne (idx : Index) (d id : Nat) (h : id ≠ d) :
    idxFind (deleteEntry idx d) id = idxFind idx id := by
  unfold idxFind deleteEntry
  induction idx with
  | nil => rfl
  | cons q rest ih =>
    by_cases hq : q.id = d
    · rw [List.filter_cons_of_neg (by simpa using hq)]
      rw [List.find?_cons_of_neg _ (by simp [hq]; omega)]
      exact ih
    · rw [List.filter_cons_of_pos (by simpa using hq)]
      by_cases hq2 : q.id = id
      · rw [List.find?_cons_of_pos _ (by simp [hq2])]
        rw [List.find?_cons_of_pos _ (by simp [hq2])]
      · rw [List.find?_cons_of_neg _ (by simpa using hq2)]
        rw [List.find?_cons_of_neg _ (by simpa using hq2)]
        exact ih

theorem idxFind_applyDeletes_not_mem (dels : List Nat) :
    ∀ (idx : Index) (id : Nat), id ∉ dels →
      idxFind (applyDeletes idx dels) id = idxFind idx id := by
  induction dels with
  | nil => intro idx id h; rfl
  | cons d rest ih =>
    intro idx id h
    simp only [List.mem_cons, not_or] at h
    rw [applyDeletes_cons, ih _ _ h.2, idxFind_deleteEntry_ne _ _ _ h.1]

theorem idxFind_applyDeletes_none (dels : List Nat) :
    ∀ (idx : Index) (id : Nat), idxFind idx id = none →
      idxFind (applyDeletes idx dels) id = none := by
  induction dels with
  | nil => intro idx id h; exact h
  | cons d rest ih =>
    intro idx id h
    rw [applyDeletes_cons]
    refine ih _ _ ?_
    by_cases hd : id = d
    · subst hd; exact idxFind_deleteEntry_self _ _
    · rw [idxFind_deleteEntry_ne _ _ _ hd]; exact h

theorem idxFind_applyDeletes_mem (dels : List Nat) :
    ∀ (idx : Index) (id : Nat), id ∈ dels →
      idxFind (applyDeletes idx dels) id = none := by
  induction dels with
  | nil => intro idx id h; exact absurd h (List.not_mem_nil id)
  | cons d rest ih =>
    intro idx id h
    rw [applyDeletes_cons]
    by_cases hd : id = d
    · subst hd
      exact idxFind_applyDeletes_none rest _ _ (idxFind_deleteEntry_self _ _)
    · exact ih _ _ (by rcases List.mem_cons.mp h with h1 | h1
                       · exact absurd h1 hd
                       · exact h1)

theorem mem_upsertEntry {p : IndexPoint} (idx : Index) (id : Nat)
    (pl : Payload) (h : p ∈ upsertEntry idx id pl) : p.id = id ∨ p ∈ idx := by
  unfold upsertEntry at h
  split at h
  · rw [List.mem_map] at h
    rcases h with ⟨q, hq, he⟩
    by_cases hqid : (q.id == id) = true
    · rw [if_pos hqid] at he
      left
      rw [← he]
    · rw [if_neg hqid] at he
      right
      rw [← he]
      exact hq
  · rw [List.mem_append] at h
    rcases h with h | h
    · right; exact h
    · left
      have : p = ⟨id, pl⟩ := by simpa using h
      rw [this]

theorem mem_applyUpserts (ups : List (Nat × List GoFloat32 × Payload)) :
    ∀ (idx : Index) (p : IndexPoint), p ∈ applyUpserts idx ups →
      p.id ∈ ups.map (fun u => u.1) ∨ p ∈ idx := by
  induction ups with
  | nil => intro idx p h; right; exact h
  | cons u rest ih =>
    intro idx p h
    rw [applyUpserts_cons] at h
    rcases ih _ _ h with h1 | h1
    · left; simp only [List.map_cons, List.mem_cons]; right; exact h1
    · rcases mem_upsertEntry _ _ _ h1 with h2 | h2
      · left; simp only [List.map_cons, List.mem_cons]; left; exact h2
      · right; exact h2

theorem mem_deleteEntry {p : IndexPoint} (idx : Index) (d : Nat)
    (h : p ∈ deleteEntry idx d) : p ∈ idx ∧ ¬ p.id = d := by
  unfold deleteEntry at h
  rw [List.mem_filter] at h
  exact ⟨h.1, by simpa using h.2⟩

theorem mem_applyDeletes (dels : List Nat) :
    ∀ (idx : Index) (p : IndexPoint), p ∈ applyDeletes idx dels →
      p ∈ idx ∧ p.id ∉ dels := by
  induction dels with
  | nil => intro idx p h; exact ⟨h, by simp⟩
  | cons d rest ih =>
    intro idx p h
    rw [applyDeletes_cons] at h
    rcases ih _ _ h with ⟨h1, h2⟩
    rcases mem_deleteEntry _ _ h1 with ⟨h3, h4⟩
    refine ⟨h3, ?_⟩
    simp only [List.mem_cons, not_or]
    exact ⟨h4, h2⟩

/-! ## Planner, worker, reconciler lemmas -/

theorem planOne_job_eq {o : Oracles} {idx : Index} {item : MBSItem}
    {j : EmbeddingJob} (h : planOne o idx item = PlanOutcome.job j) :
    j = ⟨item.ItemNum, jobText item, item, GenerateHash item⟩ := by
  unfold planOne at h
  dsimp only at h
  split at h
  · exact absurd h (by simp)
  · split at h
    · injection h with h2
      exact h2.symm
    · split at h
      · split at h
        · exact absurd h (by simp)
        · injection h with h2
          exact h2.symm
      · injection h with h2
        exact h2.symm

theorem planSelect_eq_some {o : Oracles} {idx : Index} {item : MBSItem}
    {j : EmbeddingJob} :
    planSelect o idx item = some j ↔ planOne o idx item = PlanOutcome.job j
    := by
  unfold planSelect
  cases hp : planOne o idx item <;> simp

theorem mem_planJobs {o : Oracles} {idx : Index} {batch : List MBSItem}
    {j : EmbeddingJob} (h : j ∈ planJobs o idx batch) :
    ∃ item, item ∈ batch ∧ planOne o idx item = PlanOutcome.job j := by
  unfold planJobs at h
  rw [List.mem_filterMap] at h
  rcases h with ⟨item, hm, he⟩
  exact ⟨item, hm, planSelect_eq_some.mp he⟩

theorem planJobs_itemNums_sublist (o : Oracles) (idx : Index)
    (batch : List MBSItem) :
    ((planJobs o idx batch).map (fun j => j.ItemNum)).Sublist
      (batch.map (fun item => item.ItemNum)) := by
  induction batch with
  | nil => simp [planJobs]
  | cons item rest ih =>
    unfold planJobs
    rw [List.filterMap_cons]
    cases hf : planSelect o idx item with
    | none =>
      rw [List.map_cons]
      exact ih.cons _
    | some j =>
      have hj := planOne_job_eq (planSelect_eq_some.mp hf)
      rw [List.map_cons, List.map_cons]
      have hnum : j.ItemNum = item.ItemNum := by rw [hj]
      rw [hnum]
      exact ih.cons₂ _

theorem runWorker_ItemNum (o : Oracles) (j : EmbeddingJob) :
    (runWorker o j).ItemNum = j.ItemNum := by
  unfold runWorker
  split <;> rfl

theorem runWorker_Item (o : Oracles) (j : EmbeddingJob) :
    (runWorker o j).Item = j.Item := by
  unfold runWorker
  split <;> rfl

theorem runWorker_NewHash (o : Oracles) (j : EmbeddingJob) :
    (runWorker o j).NewHash = j.NewHash := by
  unfold runWorker
  split <;> rfl

theorem runWorker_ok {o : Oracles} {j : EmbeddingJob}
    {v : List GoFloat32} (h : o.embed j.Text = Except.ok v) :
    runWorker o j = ⟨j.ItemNum, v, j.Item, j.NewHash, none⟩ := by
  unfold runWorker
  rw [h]

theorem resultUpsert_eq_some {o : Oracles} {r : EmbeddingResult}
    {u : Nat × List GoFloat32 × Payload} (h : resultUpsert o r = some u) :
    r.Error = none ∧ parseUint64 r.ItemNum = some u.1
      ∧ o.upsertErr r.ItemNum = false
      ∧ u = (u.1, r.Vector, buildPayload o r) := by
  unfold resultUpsert at h
  split at h
  · exact absurd h (by simp)
  · next hE =>
    split at h
    · exact absurd h (by simp)
    · next id hp =>
      split at h
      · exact absurd h (by simp)
      · next hu =>
        injection h with h2
        subst h2
        exact ⟨hE, hp, by simpa using hu, rfl⟩

theorem resultUpsert_of_ok {o : Oracles} {r : EmbeddingResult} {id : Nat}
    (hE : r.Error = none) (hp : parseUint64 r.ItemNum = some id)
    (hu : o.upsertErr r.ItemNum = false) :
    resultUpsert o r = some (id, r.Vector, buildPayload o r) := by
  unfold resultUpsert
  rw [hE, hp, hu]
  rfl

theorem parseUint64_toString_eq {n m : Nat}
    (h : parseUint64 (toString n) = some m) : m = n := by
  have hv := toDigitsCore_val (n + 1) n [] (by omega)
  simp only [listVal] at hv
  unfold parseUint64 at h
  rw [toString_nat_data] at h
  split at h
  · exact absurd h (by simp)
  · split at h
    · dsimp only at h
      split at h
      · injection h with h2
        rw [← h2, hv]
        rfl
      · exact absurd h (by simp)
    · exact absurd h (by simp)

theorem staleStep_eq_some {o : Oracles} {current : List String}
    {q : IndexPoint} {d : Nat} (h : staleStep o current q = some d) :
    d = q.id ∧ current.contains (toString q.id) = false
      ∧ o.deleteErr (toString q.id) = false := by
  unfold staleStep at h
  split at h
  · exact absurd h (by simp)
  · next hc =>
    split at h
    · exact absurd h (by simp)
    · next id hp =>
      split at h
      · exact absurd h (by simp)
      · next hd =>
        injection h with h2
        subst h2
        exact ⟨(parseUint64_toString_eq hp).symm ▸ rfl, by simpa using hc,
          by simpa using hd⟩

theorem staleStep_of_stale {o : Oracles} {current : List String}
    {q : IndexPoint} (hb : q.id < 2 ^ 64)
    (hc : current.contains (toString q.id) = false)
    (hd : o.deleteErr (toString q.id) = false) :
    staleStep o current q = some q.id := by
  unfold staleStep
  rw [hc, parseUint64_toString q.id hb, hd]
  rfl

theorem mem_staleDeletes {o : Oracles} {snapshot : List IndexPoint}
    {current : List String} {d : Nat}
    (h : d ∈ staleDeletes o snapshot current) :
    ∃ p, p ∈ snapshot ∧ p.id = d
      ∧ current.contains (toString p.id) = false
      ∧ o.deleteErr (toString p.id) = false := by
  unfold staleDeletes at h
  rw [List.mem_filterMap] at h
  rcases h with ⟨p, hp, he⟩
  rcases staleStep_eq_some he with ⟨h1, h2, h3⟩
  exact ⟨p, hp, h1.symm, h2, h3⟩

theorem count_staleDeletes (o : Oracles) (current : List String) :
    ∀ (snapshot : List IndexPoint) (p : IndexPoint),
      ((snapshot.map (fun q => q.id)).Nodup) → p ∈ snapshot →
      p.id < 2 ^ 64 → current.contains (toString p.id) = false →
      o.deleteErr (toString p.id) = false →
      (staleDeletes o snapshot current).count p.id = 1 := by
  intro snapshot
  induction snapshot with
  | nil => intro p _ hp; exact absurd hp (List.not_mem_nil p)
  | cons q rest ih =>
    intro p hN hp hb hc hd
    rw [List.map_cons, List.nodup_cons] at hN
    unfold staleDeletes
    rw [List.filterMap_cons]
    rcases List.mem_cons.mp hp with hpq | hpr
    · subst hpq
      rw [staleStep_of_stale hb hc hd, List.count_cons_self]
      have hz : (staleDeletes o rest current).count p.id = 0 := by
        rw [List.count_eq_zero]
        intro hmem
        rcases mem_staleDeletes hmem with ⟨p2, hp2, hid, _, _⟩
        exact hN.1 (hid ▸ List.mem_map.mpr ⟨p2, hp2, rfl⟩)
      unfold staleDeletes at hz
      rw [hz]
    · have hqp : p.id ≠ q.id := by
        intro he
        exact hN.1 (he ▸ List.mem_map.mpr ⟨p, hpr, rfl⟩)
      cases hf : staleStep o current q with
      | none => exact ih p hN.2 hpr hb hc hd
      | some d =>
        have hdq := (staleStep_eq_some hf).1
        rw [List.count_cons_of_ne (by rw [hdq]; exact hqp)]
        exact ih p hN.2 hpr hb hc hd

/-! ## Projections of runProcess -/

theorem runProcess_jobs (o : Oracles) (idx0 : Index) (batch : List MBSItem)
    (k : Nat) : (runProcess o idx0 batch k).jobs = planJobs o idx0 batch := rfl

theorem runProcess_results (o : Oracles) (idx0 : Index)
    (batch : List MBSItem) (k : Nat) :
    (runProcess o idx0 batch k).results
      = (planJobs o idx0 batch).map (runWorker o) := rfl

theorem runProcess_skipped (o : Oracles) (idx0 : Index)
    (batch : List MBSItem) (k : Nat) :
    (runProcess o idx0 batch k).skipped = planSkipped o idx0 batch := rfl

theorem runProcess_deletes (o : Oracles) (idx0 : Index)
    (batch : List MBSItem) (k : Nat) :
    (runProcess o idx0 batch k).deletes
      = staleDeletes o idx0 (batch.map (fun item => item.ItemNum)) := rfl

theorem runProcess_removed (o : Oracles) (idx0 : Index)
    (batch : List MBSItem) (k : Nat) :
    (runProcess o idx0 batch k).removed
      = (staleDeletes o idx0 (batch.map (fun item => item.ItemNum))).length
    := rfl

theorem runProcess_updated (o : Oracles) (idx0 : Index)
    (batch : List MBSItem) (k : Nat) :
    (runProcess o idx0 batch k).updated
      = ((((planJobs o idx0 batch).map (runWorker o)).take k).filterMap
          (resultUpsert o)).length := rfl

theorem runProcess_upserts (o : Oracles) (idx0 : Index)
    (batch : List MBSItem) (k : Nat) :
    (runProcess o idx0 batch k).upserts
      = (((planJobs o idx0 batch).map (runWorker o)).take k).filterMap
          (resultUpsert o)
        ++ (((planJobs o idx0 batch).map (runWorker o)).drop k).filterMap
          (resultUpsert o) := rfl

theorem runProcess_finalIndex (o : Oracles) (idx0 : Index)
    (batch : List MBSItem) (k : Nat) :
    (runProcess o idx0 batch k).finalIndex
      = applyUpserts
          (applyDeletes
            (applyUpserts idx0
              ((((planJobs o idx0 batch).map (runWorker o)).take k).filterMap
                (resultUpsert o)))
            (staleDeletes o idx0 (batch.map (fun item => item.ItemNum))))
          ((((planJobs o idx0 batch).map (runWorker o)).drop k).filterMap
            (resultUpsert o)) := rfl

theorem contains_of_mem {l : List String} {s : String} (h : s ∈ l) :
    l.contains s = true := by
  simpa using List.elem_eq_true_of_mem h

theorem mem_results {o : Oracles} {idx0 : Index} {batch : List MBSItem}
    {r : EmbeddingResult}
    (h : r ∈ (planJobs o idx0 batch).map (runWorker o)) :
    ∃ j, j ∈ planJobs o idx0 batch ∧ r = runWorker o j := by
  rw [List.mem_map] at h
  rcases h with ⟨j, hj, he⟩
  exact ⟨j, hj, he.symm⟩

/-- Any successful upsert out of (a sublist of) the run's results carries a
point id that is the parsed value of some batch identifier; with canonical
identifiers, its rendering is a batch identifier and it is a uint64 value. -/
theorem upsert_id_canonical {o : Oracles} {idx0 : Index}
    {batch : List MBSItem}
    (hC : ∀ item ∈ batch, canonicalId item.ItemNum = true)
    {rs : List EmbeddingResult}
    (hsub : rs.Sublist ((planJobs o idx0 batch).map (runWorker o)))
    {u : Nat × List GoFloat32 × Payload}
    (hu : u ∈ rs.filterMap (resultUpsert o)) :
    u.1 < 2 ^ 64
      ∧ toString u.1 ∈ batch.map (fun item => item.ItemNum) := by
  rw [List.mem_filterMap] at hu
  rcases hu with ⟨r, hr, he⟩
  rcases mem_results (hsub.subset hr) with ⟨j, hj, hrw⟩
  rcases mem_planJobs hj with ⟨item, hitem, hpj⟩
  have hjeq := planOne_job_eq hpj
  have hnum : r.ItemNum = item.ItemNum := by
    rw [hrw, runWorker_ItemNum, hjeq]
  rcases resultUpsert_eq_some he with ⟨_, hparse, _, _⟩
  rcases canonicalId_parse (hC item hitem) with ⟨n, hpn, hts, hlt⟩
  rw [hnum, hpn] at hparse
  have hun : n = u.1 := by injection hparse
  subst hun
  exact ⟨hlt, by rw [hts]; exact List.mem_map.mpr ⟨item, hitem, rfl⟩⟩

/-! ## C2 -/

/-- C2, counterexample: with the non-canonical incoming identifier "07" and a
stored point 7, one run both upserts point 7 (the job for "07" parses to id 7)
and deletes point 7 (the stale pass renders id 7 as "7", which is not among
the incoming identifiers) — the same identifier is updated and deleted in a
single run. -/
theorem C2_counterexample :
    (runProcess oraclesOK [pointSeven] [itemOhSeven] 1).upserts.map
        (fun u => u.1) = [7]
    ∧ (runProcess oraclesOK [pointSeven] [itemOhSeven] 1).deletes = [7] :=
  ⟨by decide, by decide⟩

/-- C2, amended: provided every incoming ItemNum is the canonical decimal
rendering of its uint64 value, a point of the snapshot whose rendered id is
absent from the incoming batch is deleted exactly once (given unique snapshot
ids, uint64 snapshot ids and no delete-transport failures), and no point id is
both upserted and deleted within the same run.  Without canonicality (for
example identifier "07") the same point can be both upserted and deleted. -/
theorem C2_stale_deleted_once_no_overlap (o : Oracles) (idx0 : Index)
    (batch : List MBSItem) (k : Nat)
    (hN : (idx0.map (fun p => p.id)).Nodup)
    (hC : ∀ item ∈ batch, canonicalId item.ItemNum = true)
    (hB : ∀ p ∈ idx0, p.id < 2 ^ 64)
    (hDE : ∀ s, o.deleteErr s = false) :
    (∀ p ∈ idx0, (batch.map (fun item => item.ItemNum)).contains
        (toString p.id) = false →
      (runProcess o idx0 batch k).deletes.count p.id = 1)
    ∧ ∀ id ∈ (runProcess o idx0 batch k).upserts.map (fun u => u.1),
        id ∉ (runProcess o idx0 batch k).deletes := by
  constructor
  · intro p hp hc
    rw [runProcess_deletes]
    exact count_staleDeletes o _ idx0 p hN hp (hB p hp) hc (hDE _)
  · intro id hid hdel
    rw [runProcess_deletes] at hdel
    rcases mem_staleDeletes hdel with ⟨p, _, hpid, hcon, _⟩
    rw [runProcess_upserts, List.map_append, List.mem_append] at hid
    have hidc : toString id ∈ batch.map (fun item => item.ItemNum) := by
      rcases hid with hid | hid <;>
        rcases List.mem_map.mp hid with ⟨u, hu, hue⟩
      · subst hue
        exact (upsert_id_canonical hC (List.take_sublist _ _) hu).2
      · subst hue
        exact (upsert_id_canonical hC (List.drop_sublist _ _) hu).2
    rw [hpid] at hcon
    rw [contains_of_mem hidc] at hcon
    exact Bool.noConfusion hcon

theorem planOne_lookupErr {o : Oracles} {idx : Index} {item : MBSItem}
    (h : o.lookupErr item.ItemNum = true) :
    planOne o idx item = PlanOutcome.lookupFailed := by
  unfold planOne GetPoint
  cases hp : parseUint64 item.ItemNum <;> simp [h]

theorem planOne_parse_none {o : Oracles} {idx : Index} {item : MBSItem}
    (h : parseUint64 item.ItemNum = none) :
    planOne o idx item = PlanOutcome.lookupFailed := by
  unfold planOne GetPoint
  rw [h]

/-- A fresh item with canonical identifier "7" (the canonical spelling of the
stored point id 7). -/
def itemSeven : MBSItem :=
  { blankItem with ItemNum := "7", Description := "d7" }

/-- Failure-free oracles except that the point lookup for identifier "7"
fails with a transport error. -/
def oraclesLookup7 : Oracles :=
  { oraclesOK with lookupErr := fun s => s == "7" }

/-! ## C6 -/

/-- C6, counterexample: the record "07" whose point lookup fails is NOT left
untouched for the run: no job is emitted for it, but the stale pass still
deletes its stored point 7 (the rendered id "7" differs from the marked
identifier "07"), so the record is deleted in the very run whose lookup for
it failed. -/
theorem C6_counterexample :
    (runProcess oraclesLookup07 [pointSeven] [itemOhSeven] 1).jobs = []
    ∧ (runProcess oraclesLookup07 [pointSeven] [itemOhSeven] 1).deletes = [7]
    := ⟨by decide, by decide⟩

/-- C6, amended: provided every incoming identifier is canonical, a record
whose point lookup returns an error is skipped for the run: no job carries its
identifier, no upsert targets its point id, and its point id is not deleted in
the stale pass.  With a non-canonical identifier ("07") the deletion guarantee
fails: the record's stored point is deleted although its lookup failed. -/
theorem C6_lookup_failure_skips (o : Oracles) (idx0 : Index)
    (batch : List MBSItem) (k : Nat) (item : MBSItem)
    (hC : ∀ b ∈ batch, canonicalId b.ItemNum = true)
    (hit : item ∈ batch) (herr : o.lookupErr item.ItemNum = true) :
    (∀ j ∈ (runProcess o idx0 batch k).jobs, j.ItemNum ≠ item.ItemNum)
    ∧ (∀ u ∈ (runProcess o idx0 batch k).upserts,
        toString u.1 ≠ item.ItemNum)
    ∧ (∀ d ∈ (runProcess o idx0 batch k).deletes,
        toString d ≠ item.ItemNum) := by
  have hjob : ∀ j ∈ planJobs o idx0 batch, j.ItemNum ≠ item.ItemNum := by
    intro j hj he
    rcases mem_planJobs hj with ⟨item2, hm2, hp2⟩
    have hnum : j.ItemNum = item2.ItemNum := by
      rw [planOne_job_eq hp2]
    have herr2 : o.lookupErr item2.ItemNum = true := by
      rw [← hnum, he]
      exact herr
    rw [planOne_lookupErr herr2] at hp2
    exact PlanOutcome.noConfusion hp2
  refine ⟨by rw [runProcess_jobs]; exact hjob, ?_, ?_⟩
  · intro u hu he
    rw [runProcess_upserts, List.mem_append] at hu
    have hmem : ∃ rs : List EmbeddingResult,
        rs.Sublist ((planJobs o idx0 batch).map (runWorker o))
        ∧ u ∈ rs.filterMap (resultUpsert o) := by
      rcases hu with hu | hu
      · exact ⟨_, List.take_sublist _ _, hu⟩
      · exact ⟨_, List.drop_sublist _ _, hu⟩
    rcases hmem with ⟨rs, hsub, hu2⟩
    rw [List.mem_filterMap] at hu2
    rcases hu2 with ⟨r, hr, hru⟩
    rcases mem_results (hsub.subset hr) with ⟨j, hj, hrw⟩
    rcases mem_planJobs hj with ⟨item2, hm2, hp2⟩
    have hnum : r.ItemNum = item2.ItemNum := by
      rw [hrw, runWorker_ItemNum, planOne_job_eq hp2]
    rcases resultUpsert_eq_some hru with ⟨_, hparse, _, _⟩
    rcases canonicalId_parse (hC item2 hm2) with ⟨n, hpn, hts, _⟩
    rw [hnum, hpn] at hparse
    have hun : n = u.1 := by injection hparse
    subst hun
    rw [hts] at he
    exact hjob j hj (by rw [planOne_job_eq hp2]; exact he)
  · intro d hd he
    rw [runProcess_deletes] at hd
    rcases mem_staleDeletes hd with ⟨p, _, hpid, hcon, _⟩
    rw [hpid, he, contains_of_mem
      (List.mem_map.mpr ⟨item, hit, rfl⟩)] at hcon
    exact Bool.noConfusion hcon

/-- C6, witness for the amended theorem: identifier "7" with a failing
lookup and stored point 7 — no job, no upsert of id 7, no deletion of id 7. -/
theorem C6_lookup_failure_skips_witness :
    (∀ j ∈ (runProcess oraclesLookup7 [pointSeven] [itemSeven] 1).jobs,
      j.ItemNum ≠ itemSeven.ItemNum)
    ∧ (∀ u ∈ (runProcess oraclesLookup7 [pointSeven] [itemSeven] 1).upserts,
        toString u.1 ≠ itemSeven.ItemNum)
    ∧ (∀ d ∈ (runProcess oraclesLookup7 [pointSeven] [itemSeven] 1).deletes,
        toString d ≠ itemSeven.ItemNum) :=
  C6_lookup_failure_skips oraclesLookup7 [pointSeven] [itemSeven] 1 itemSeven
    (by decide) (by decide) (by decide)

theorem contains_middle_ne {m1 m2 : List String} {b s : String} (h : s ≠ b) :
    (m1 ++ b :: m2).contains s = (m1 ++ m2).contains s := by
  simp [List.contains_eq_any_beq, h]

/-! ## C4 -/

/-- C4, counterexample: a batch holding a record with a missing (empty)
identifier is NOT rejected before processing: the run goes ahead, queues a job
for the valid record, calls the provider, performs its upsert and reports a
success summary with updated = 1. -/
theorem C4_counterexample :
    (runProcess oraclesOK [] [itemNoId, itemOne] 2).jobs.length = 1
    ∧ (runProcess oraclesOK [] [itemNoId, itemOne] 2).upserts.map
        (fun u => u.1) = [1]
    ∧ (runProcess oraclesOK [] [itemNoId, itemOne] 2).updated = 1 :=
  ⟨by decide, by decide, by decide⟩

/-- C4, amended: malformed records are not validated and the batch is never
rejected: a record whose identifier fails ParseUint is skipped individually
(its point lookup errors before reaching the remote index) and is entirely
transparent to the rest of the run — jobs, skipped/updated/removed counts and
the final index state are those of the batch without it; only the processed
total counts it.  The whole inbound batch is rejected only when the JSON body
fails to decode (HTTP 400), or in CLI mode when the parsed batch is empty. -/
theorem C4_invalid_record_transparent (o : Oracles) (idx0 : Index)
    (b1 b2 : List MBSItem) (bad : MBSItem) (k : Nat)
    (hbad : parseUint64 bad.ItemNum = none)
    (hB : ∀ p ∈ idx0, p.id < 2 ^ 64) :
    (runProcess o idx0 (b1 ++ bad :: b2) k).jobs
        = (runProcess o idx0 (b1 ++ b2) k).jobs
    ∧ (runProcess o idx0 (b1 ++ bad :: b2) k).skipped
        = (runProcess o idx0 (b1 ++ b2) k).skipped
    ∧ (runProcess o idx0 (b1 ++ bad :: b2) k).updated
        = (runProcess o idx0 (b1 ++ b2) k).updated
    ∧ (runProcess o idx0 (b1 ++ bad :: b2) k).removed
        = (runProcess o idx0 (b1 ++ b2) k).removed
    ∧ (runProcess o idx0 (b1 ++ bad :: b2) k).finalIndex
        = (runProcess o idx0 (b1 ++ b2) k).finalIndex := by
  have hjobs : planJobs o idx0 (b1 ++ bad :: b2) = planJobs o idx0 (b1 ++ b2)
      := by
    unfold planJobs
    rw [List.filterMap_append, List.filterMap_append, List.filterMap_cons]
    have hsel : planSelect o idx0 bad = none := by
      unfold planSelect
      rw [planOne_parse_none hbad]
    rw [hsel]
  have hdels : staleDeletes o idx0
        ((b1 ++ bad :: b2).map (fun item => item.ItemNum))
      = staleDeletes o idx0 ((b1 ++ b2).map (fun item => item.ItemNum)) := by
    unfold staleDeletes
    refine List.filterMap_congr ?_
    intro p hp
    unfold staleStep
    rw [List.map_append, List.map_cons, List.map_append,
      contains_middle_ne (fun he =>
        toString_ne_of_parse_none (hB p hp) hbad he)]
  have hskip : planSkipped o idx0 (b1 ++ bad :: b2)
      = planSkipped o idx0 (b1 ++ b2) := by
    unfold planSkipped
    rw [List.countP_append, List.countP_append, List.countP_cons]
    have : (planOne o idx0 bad = PlanOutcome.unchanged) = False := by
      rw [planOne_parse_none hbad]
      simp
    simp [this]
  refine ⟨?_, ?_, ?_, ?_, ?_⟩
  · rw [runProcess_jobs, runProcess_jobs, hjobs]
  · rw [runProcess_skipped, runProcess_skipped, hskip]
  · rw [runProcess_updated, runProcess_updated, hjobs]
  · rw [runProcess_removed, runProcess_removed, hdels]
  · rw [runProcess_finalIndex, runProcess_finalIndex, hjobs, hdels]

/-- C4, witness for the amended theorem: the empty-identifier record among one
valid record changes no outcome of the run. -/
theorem C4_invalid_record_transparent_witness :
    (runProcess oraclesOK [] ([] ++ itemNoId :: [itemOne]) 2).jobs
        = (runProcess oraclesOK [] ([] ++ [itemOne]) 2).jobs
    ∧ (runProcess oraclesOK [] ([] ++ itemNoId :: [itemOne]) 2).skipped
        = (runProcess oraclesOK [] ([] ++ [itemOne]) 2).skipped
    ∧ (runProcess oraclesOK [] ([] ++ itemNoId :: [itemOne]) 2).updated
        = (runProcess oraclesOK [] ([] ++ [itemOne]) 2).updated
    ∧ (runProcess oraclesOK [] ([] ++ itemNoId :: [itemOne]) 2).removed
        = (runProcess oraclesOK [] ([] ++ [itemOne]) 2).removed
    ∧ (runProcess oraclesOK [] ([] ++ itemNoId :: [itemOne]) 2).finalIndex
        = (runProcess oraclesOK [] ([] ++ [itemOne]) 2).finalIndex :=
  C4_invalid_record_transparent oraclesOK [] [] [itemOne] itemNoId 2
    (by decide) (by decide)

theorem buildPayload_item_num (o : Oracles) (r : EmbeddingResult) :
    (buildPayload o r).lookup "item_num"
      = some (QValue.str r.Item.ItemNum) := rfl

theorem buildPayload_hash (o : Oracles) (r : EmbeddingResult) :
    (buildPayload o r).lookup "_hash" = some (QValue.str r.NewHash) := rfl

/-! ## C10 -/

/-- C10: for a record whose ItemNum is not a parseable decimal uint64,
GetPoint, UpsertPoint and DeletePoint each fail at the ParseUint step; in the
run the record's classification is the lookup-failure branch, so no job, no
Result and no stored payload carries its identifier — it is silently skipped
(counted neither as skipped-unchanged nor as updated) every run. -/
theorem C10_unparseable_identifier (o : Oracles) (idx : Index)
    (batch : List MBSItem) (k : Nat) (item : MBSItem) (s : String)
    (hs : item.ItemNum = s) (hp : parseUint64 s = none) (hit : item ∈ batch) :
    (∃ e, GetPoint o idx s = Except.error e)
    ∧ (∀ pl, ∃ e, UpsertPoint o idx s pl = Except.error e)
    ∧ (∃ e, DeletePoint o idx s = Except.error e)
    ∧ planOne o idx item = PlanOutcome.lookupFailed
    ∧ (∀ j ∈ (runProcess o idx batch k).jobs, j.ItemNum ≠ s)
    ∧ (∀ r ∈ (runProcess o idx batch k).results, r.ItemNum ≠ s)
    ∧ (∀ u ∈ (runProcess o idx batch k).upserts,
        u.2.2.lookup "item_num" ≠ some (QValue.str s)) := by
  have hjob : ∀ j ∈ planJobs o idx batch, j.ItemNum ≠ s := by
    intro j hj he
    rcases mem_planJobs hj with ⟨item2, _, hp2⟩
    have hnum : j.ItemNum = item2.ItemNum := by
      rw [planOne_job_eq hp2]
    have : parseUint64 item2.ItemNum = none := by
      rw [← hnum, he]
      exact hp
    rw [planOne_parse_none this] at hp2
    exact PlanOutcome.noConfusion hp2
  refine ⟨?_, ?_, ?_, ?_, ?_, ?_, ?_⟩
  · exact ⟨_, by unfold GetPoint; rw [hp]⟩
  · intro pl
    exact ⟨_, by unfold UpsertPoint; rw [hp]⟩
  · exact ⟨_, by unfold DeletePoint; rw [hp]⟩
  · exact planOne_parse_none (by rw [hs]; exact hp)
  · rw [runProcess_jobs]
    exact hjob
  · rw [runProcess_results]
    intro r hr he
    rcases mem_results hr with ⟨j, hj, hrw⟩
    refine hjob j hj ?_
    rw [← he, hrw, runWorker_ItemNum]
  · intro u hu he
    rw [runProcess_upserts, List.mem_append] at hu
    have hmem : ∃ rs : List EmbeddingResult,
        rs.Sublist ((planJobs o idx batch).map (runWorker o))
        ∧ u ∈ rs.filterMap (resultUpsert o) := by
      rcases hu with hu | hu
      · exact ⟨_, List.take_sublist _ _, hu⟩
      · exact ⟨_, List.drop_sublist _ _, hu⟩
    rcases hmem with ⟨rs, hsub, hu2⟩
    rw [List.mem_filterMap] at hu2
    rcases hu2 with ⟨r, hr, hru⟩
    rcases mem_results (hsub.subset hr) with ⟨j, hj, hrw⟩
    rcases mem_planJobs hj with ⟨item2, hm2, hp2⟩
    rcases resultUpsert_eq_some hru with ⟨_, _, _, hue⟩
    rw [hue, buildPayload_item_num] at he
    have hitem : r.Item = item2 := by
      rw [hrw, runWorker_Item, planOne_job_eq hp2]
    have : item2.ItemNum = s := by
      have h2 := Option.some_inj.mp he
      have h3 : r.Item.ItemNum = s := by
        injection h2
      rw [← h3, hitem]
    refine hjob j hj ?_
    rw [planOne_job_eq hp2]
    exact this

/-- C10, witness: the empty identifier "" at a concrete run. -/
theorem C10_unparseable_identifier_witness :
    ((∃ e, GetPoint oraclesOK [] "" = Except.error e)
    ∧ (∀ pl, ∃ e, UpsertPoint oraclesOK [] "" pl = Except.error e)
    ∧ (∃ e, DeletePoint oraclesOK [] "" = Except.error e)
    ∧ planOne oraclesOK [] itemNoId = PlanOutcome.lookupFailed
    ∧ (∀ j ∈ (runProcess oraclesOK [] [itemNoId] 0).jobs, j.ItemNum ≠ "")
    ∧ (∀ r ∈ (runProcess oraclesOK [] [itemNoId] 0).results, r.ItemNum ≠ "")
    ∧ (∀ u ∈ (runProcess oraclesOK [] [itemNoId] 0).upserts,
        u.2.2.lookup "item_num" ≠ some (QValue.str ""))) :=
  C10_unparseable_identifier oraclesOK [] [itemNoId] 0 itemNoId ""
    rfl (by decide) (by decide)

/-- C2, witness for the amended theorem: canonical identifier "1" incoming,
stored point 7 stale — deleted exactly once and never upserted-and-deleted. -/
theorem C2_stale_deleted_once_no_overlap_witness :
    (∀ p ∈ ([pointSeven] : Index),
      (([itemOne].map (fun item => item.ItemNum)).contains
        (toString p.id)) = false →
      (runProcess oraclesOK [pointSeven] [itemOne] 1).deletes.count p.id = 1)
    ∧ ∀ id ∈ (runProcess oraclesOK [pointSeven] [itemOne] 1).upserts.map
        (fun u => u.1),
        id ∉ (runProcess oraclesOK [pointSeven] [itemOne] 1).deletes :=
  C2_stale_deleted_once_no_overlap oraclesOK [pointSeven] [itemOne] 1
    (by decide) (by decide) (by decide) (fun s => rfl)

/-! ## Lemmas toward idempotence (C8) -/

theorem filterMap_take_drop {α β : Type} (f : α → Option β) (l : List α)
    (k : Nat) :
    (l.take k).filterMap f ++ (l.drop k).filterMap f = l.filterMap f := by
  rw [← List.filterMap_append, List.take_append_drop]

theorem results_map_itemNum (o : Oracles) (jobs : List EmbeddingJob) :
    (jobs.map (runWorker o)).map (fun r => r.ItemNum)
      = jobs.map (fun j => j.ItemNum) := by
  induction jobs with
  | nil => rfl
  | cons j rest ih =>
    simp only [List.map_cons, runWorker_ItemNum, ih]

/-- Every result of the run carries a canonical identifier when the batch
does. -/
theorem results_canonical {o : Oracles} {idx0 : Index} {batch : List MBSItem}
    (hC : ∀ item ∈ batch, canonicalId item.ItemNum = true)
    {r : EmbeddingResult}
    (hr : r ∈ (planJobs o idx0 batch).map (runWorker o)) :
    canonicalId r.ItemNum = true := by
  rcases mem_results hr with ⟨j, hj, hrw⟩
  rcases mem_planJobs hj with ⟨item, hm, hp⟩
  have : r.ItemNum = item.ItemNum := by
    rw [hrw, runWorker_ItemNum, planOne_job_eq hp]
  rw [this]
  exact hC item hm

/-- Distinct canonical identifiers parse to distinct values, so the
successful-upsert ids of a result list with Nodup canonical identifiers are
Nodup. -/
theorem upsertIds_nodup (o : Oracles) :
    ∀ rs : List EmbeddingResult,
      (∀ r ∈ rs, canonicalId r.ItemNum = true) →
      ((rs.map (fun r => r.ItemNum)).Nodup) →
      ((rs.filterMap (resultUpsert o)).map (fun u => u.1)).Nodup := by
  intro rs
  induction rs with
  | nil => intro _ _; simp
  | cons r rest ih =>
    intro hcan hnd
    rw [List.map_cons, List.nodup_cons] at hnd
    rw [List.filterMap_cons]
    cases hf : resultUpsert o r with
    | none => exact ih (fun r2 h2 => hcan r2 (List.mem_cons_of_mem r h2)) hnd.2
    | some u =>
      rw [List.map_cons, List.nodup_cons]
      refine ⟨?_, ih (fun r2 h2 => hcan r2 (List.mem_cons_of_mem r h2)) hnd.2⟩
      intro hmem
      rw [List.mem_map] at hmem
      rcases hmem with ⟨u2, hu2, he2⟩
      rw [List.mem_filterMap] at hu2
      rcases hu2 with ⟨r2, hr2, hf2⟩
      rcases resultUpsert_eq_some hf with ⟨_, hp1, _, _⟩
      rcases resultUpsert_eq_some hf2 with ⟨_, hp2, _, _⟩
      rcases canonicalId_parse (hcan r (List.mem_cons_self r rest)) with
        ⟨n1, hn1, ht1, _⟩
      rcases canonicalId_parse (hcan r2 (List.mem_cons_of_mem r hr2)) with
        ⟨n2, hn2, ht2, _⟩
      rw [hn1] at hp1
      rw [hn2] at hp2
      have e1 : n1 = u.1 := by injection hp1
      have e2 : n2 = u2.1 := by injection hp2
      have : r2.ItemNum = r.ItemNum := by
        rw [← ht1, ← ht2, e1, e2, he2]
      exact hnd.1 (this ▸ List.mem_map.mpr ⟨r2, hr2, rfl⟩)

/-- Find the entry an upsert list with Nodup ids stores for one of its
members. -/
theorem idxFind_applyUpserts_nodup
    {ups : List (Nat × List GoFloat32 × Payload)}
    (hnd : (ups.map (fun u => u.1)).Nodup)
    {u : Nat × List GoFloat32 × Payload} (hu : u ∈ ups) (idx : Index) :
    idxFind (applyUpserts idx ups) u.1 = some ⟨u.1, u.2.2⟩ := by
  rcases List.append_of_mem hu with ⟨s, t, he⟩
  subst he
  refine idxFind_applyUpserts_last u s t idx ?_
  have h2 : ((u :: t).map (fun v => v.1)).Nodup := by
    rw [List.map_append] at hnd
    exact hnd.of_append_right
  rw [List.map_cons, List.nodup_cons] at h2
  exact h2.1

theorem planOne_ne_failed {o : Oracles} {idx : Index} {item : MBSItem}
    {n : Nat} (hp : parseUint64 item.ItemNum = some n)
    (hle : o.lookupErr item.ItemNum = false) :
    planOne o idx item ≠ PlanOutcome.lookupFailed := by
  intro h
  unfold planOne GetPoint at h
  rw [hp, hle] at h
  simp only [Bool.false_eq_true, if_false] at h
  split at h
  · exact PlanOutcome.noConfusion h
  · split at h
    · split at h
      · exact PlanOutcome.noConfusion h
      · exact PlanOutcome.noConfusion h
    · exact PlanOutcome.noConfusion h

theorem planOne_unchanged_elim {o : Oracles} {idx : Index} {item : MBSItem}
    {n : Nat} (hp : parseUint64 item.ItemNum = some n)
    (hle : o.lookupErr item.ItemNum = false)
    (h : planOne o idx item = PlanOutcome.unchanged) :
    ∃ q, idxFind idx n = some q
      ∧ q.payload.lookup "_hash"
          = some (QValue.str (GenerateHash item)) := by
  unfold planOne GetPoint at h
  rw [hp, hle] at h
  simp only [Bool.false_eq_true, if_false] at h
  split at h
  · exact PlanOutcome.noConfusion h
  · next point heq =>
    split at h
    · next h' hl =>
      split at h
      · next heq2 =>
        exact ⟨point, heq, by rw [hl, heq2]⟩
      · exact PlanOutcome.noConfusion h
    · exact PlanOutcome.noConfusion h

theorem planOne_unchanged_intro {o : Oracles} {idx : Index} {item : MBSItem}
    {n : Nat} {q : IndexPoint}
    (hp : parseUint64 item.ItemNum = some n)
    (hle : o.lookupErr item.ItemNum = false)
    (hf : idxFind idx n = some q)
    (hh : q.payload.lookup "_hash"
      = some (QValue.str (GenerateHash item))) :
    planOne o idx item = PlanOutcome.unchanged := by
  unfold planOne GetPoint
  rw [hp, hle]
  simp only [Bool.false_eq_true, if_false]
  rw [hf]
  dsimp only
  rw [hh]
  dsimp only
  rw [if_pos rfl]

theorem idxFind_final {u1 u2 : List (Nat × List GoFloat32 × Payload)}
    {dels : List Nat} {idx0 : Index}
    (hnd : ((u1 ++ u2).map (fun u => u.1)).Nodup)
    {u : Nat × List GoFloat32 × Payload} (hu : u ∈ u1 ++ u2)
    (hdel : u.1 ∉ dels) :
    idxFind (applyUpserts (applyDeletes (applyUpserts idx0 u1) dels) u2) u.1
      = some ⟨u.1, u.2.2⟩ := by
  rw [List.map_append] at hnd
  rcases List.mem_append.mp hu with hu1 | hu2m
  · have hdisj := (List.nodup_append.mp hnd).2.2
    have hne2 : u.1 ∉ u2.map (fun v => v.1) :=
      fun hm => hdisj (List.mem_map.mpr ⟨u, hu1, rfl⟩) hm
    rw [idxFind_applyUpserts_not_mem _ _ _ hne2,
      idxFind_applyDeletes_not_mem _ _ _ hdel]
    exact idxFind_applyUpserts_nodup (List.nodup_append.mp hnd).1 hu1 idx0
  · exact idxFind_applyUpserts_nodup hnd.of_append_right hu2m _

/-- The provenance of a successful upsert: the batch item and job it came
from, with the stored payload spelled out. -/
theorem upsert_src {o : Oracles} {idx0 : Index} {batch : List MBSItem}
    {rs : List EmbeddingResult}
    (hsub : rs.Sublist ((planJobs o idx0 batch).map (runWorker o)))
    {u : Nat × List GoFloat32 × Payload}
    (hu : u ∈ rs.filterMap (resultUpsert o)) :
    ∃ item2 j, item2 ∈ batch ∧ planOne o idx0 item2 = PlanOutcome.job j
      ∧ j = ⟨item2.ItemNum, jobText item2, item2, GenerateHash item2⟩
      ∧ parseUint64 item2.ItemNum = some u.1
      ∧ u = (u.1, (runWorker o j).Vector,
          buildPayload o (runWorker o j)) := by
  rw [List.mem_filterMap] at hu
  rcases hu with ⟨r, hr, hru⟩
  rcases mem_results (hsub.subset hr) with ⟨j, hj, hrw⟩
  rcases mem_planJobs hj with ⟨item2, hm2, hp2⟩
  have hjeq := planOne_job_eq hp2
  have hnum : r.ItemNum = item2.ItemNum := by
    rw [hrw, runWorker_ItemNum, hjeq]
  rcases resultUpsert_eq_some hru with ⟨_, hparse, _, hue⟩
  refine ⟨item2, j, hm2, hp2, hjeq, by rw [← hnum]; exact hparse, ?_⟩
  rw [hue, ← hrw]

/-- After an error-free run over a batch of canonical, pairwise-distinct
identifiers, the final index holds, for every batch item, an entry at its
parsed point id whose stored `_hash` is exactly the item's fresh
fingerprint — whether the item was skipped as unchanged (old entry kept) or
re-embedded (new payload written). -/
theorem run1_final_hash (o : Oracles) (idx0 : Index) (batch : List MBSItem)
    (k : Nat)
    (hC : ∀ item ∈ batch, canonicalId item.ItemNum = true)
    (hD : (batch.map (fun item => item.ItemNum)).Nodup)
    (hLE : ∀ s, o.lookupErr s = false)
    (hUE : ∀ s, o.upsertErr s = false)
    (hEmb : ∀ t, ∃ v, o.embed t = Except.ok v)
    (item : MBSItem) (hit : item ∈ batch) (n : Nat)
    (hp : parseUint64 item.ItemNum = some n) :
    ∃ q, idxFind (runProcess o idx0 batch k).finalIndex n = some q
      ∧ q.payload.lookup "_hash"
          = some (QValue.str (GenerateHash item)) := by
  have htos : toString n = item.ItemNum := by
    rcases canonicalId_parse (hC item hit) with ⟨n2, hp2, hts2, _⟩
    rw [hp] at hp2
    have he : n = n2 := by injection hp2
    rw [he]
    exact hts2
  have hcur : (batch.map (fun it => it.ItemNum)).contains (toString n)
      = true := by
    rw [htos]
    exact contains_of_mem (List.mem_map.mpr ⟨item, hit, rfl⟩)
  have hndel : n ∉ staleDeletes o idx0 (batch.map (fun it => it.ItemNum))
      := by
    intro hmem
    rcases mem_staleDeletes hmem with ⟨p, _, hpid, hcon, _⟩
    rw [hpid, hcur] at hcon
    exact Bool.noConfusion hcon
  rw [runProcess_finalIndex]
  cases hplan : planOne o idx0 item with
  | lookupFailed => exact absurd hplan (planOne_ne_failed hp (hLE _))
  | unchanged =>
    rcases planOne_unchanged_elim hp (hLE _) hplan with ⟨q, hfq, hhash⟩
    have hnup : ∀ rs : List EmbeddingResult,
        rs.Sublist ((planJobs o idx0 batch).map (runWorker o)) →
        n ∉ (rs.filterMap (resultUpsert o)).map (fun u => u.1) := by
      intro rs hsub hmem
      rcases List.mem_map.mp hmem with ⟨u, hu, hue⟩
      rcases upsert_src hsub hu with ⟨item2, j, hm2, hp2, _, hparse2, _⟩
      rw [hue] at hparse2
      have htos2 : toString n = item2.ItemNum := by
        rcases canonicalId_parse (hC item2 hm2) with ⟨n2, hp2b, hts2, _⟩
        rw [hparse2] at hp2b
        have he : n = n2 := by injection hp2b
        rw [he]
        exact hts2
      have heq : item2 = item :=
        List.inj_on_of_nodup_map hD hm2 hit (by rw [← htos2, htos])
      rw [heq, hplan] at hp2
      exact PlanOutcome.noConfusion hp2
    refine ⟨q, ?_, hhash⟩
    rw [idxFind_applyUpserts_not_mem _ _ _ (hnup _ (List.drop_sublist _ _)),
      idxFind_applyDeletes_not_mem _ _ _ hndel,
      idxFind_applyUpserts_not_mem _ _ _ (hnup _ (List.take_sublist _ _))]
    exact hfq
  | job j =>
    have hjeq := planOne_job_eq hplan
    have hj : j ∈ planJobs o idx0 batch := by
      unfold planJobs
      exact List.mem_filterMap.mpr ⟨item, hit, planSelect_eq_some.mpr hplan⟩
    rcases hEmb j.Text with ⟨v, hv⟩
    have hrwj := runWorker_ok hv
    have hpr : parseUint64 (runWorker o j).ItemNum = some n := by
      rw [runWorker_ItemNum]
      rw [show j.ItemNum = item.ItemNum from by rw [hjeq]]
      exact hp
    have hru : resultUpsert o (runWorker o j)
        = some (n, (runWorker o j).Vector,
            buildPayload o (runWorker o j)) := by
      refine resultUpsert_of_ok ?_ hpr ?_
      · rw [hrwj]
      · exact hUE _
    have hmem : (n, (runWorker o j).Vector, buildPayload o (runWorker o j))
        ∈ ((planJobs o idx0 batch).map (runWorker o)).filterMap
          (resultUpsert o) :=
      List.mem_filterMap.mpr
        ⟨runWorker o j, List.mem_map.mpr ⟨j, hj, rfl⟩, hru⟩
    have hcanr : ∀ r ∈ (planJobs o idx0 batch).map (runWorker o),
        canonicalId r.ItemNum = true :=
      fun r hr => results_canonical hC hr
    have hndr : (((planJobs o idx0 batch).map (runWorker o)).map
        (fun r => r.ItemNum)).Nodup := by
      rw [results_map_itemNum]
      exact (planJobs_itemNums_sublist o idx0 batch).nodup hD
    have hnd := upsertIds_nodup o _ hcanr hndr
    rw [← filterMap_take_drop (resultUpsert o)
      ((planJobs o idx0 batch).map (runWorker o)) k] at hnd hmem
    refine ⟨⟨n, buildPayload o (runWorker o j)⟩, ?_, ?_⟩
    · exact idxFind_final hnd hmem hndel
    · rw [buildPayload_hash, runWorker_NewHash]
      rw [show j.NewHash = GenerateHash item from by rw [hjeq]]

/-- After an error-free run over canonical identifiers, every point left in
the index has a rendered id that is one of the incoming identifiers (upserted
entries come from batch jobs; surviving old entries would have been deleted
as stale otherwise). -/
theorem run1_final_ids (o : Oracles) (idx0 : Index) (batch : List MBSItem)
    (k : Nat)
    (hC : ∀ item ∈ batch, canonicalId item.ItemNum = true)
    (hB : ∀ p ∈ idx0, p.id < 2 ^ 64)
    (hDE : ∀ s, o.deleteErr s = false)
    {p : IndexPoint} (hp : p ∈ (runProcess o idx0 batch k).finalIndex) :
    (batch.map (fun item => item.ItemNum)).contains (toString p.id)
      = true := by
  rw [runProcess_finalIndex] at hp
  have hup : ∀ rs : List EmbeddingResult,
      rs.Sublist ((planJobs o idx0 batch).map (runWorker o)) →
      p.id ∈ (rs.filterMap (resultUpsert o)).map (fun u => u.1) →
      (batch.map (fun item => item.ItemNum)).contains (toString p.id)
        = true := by
    intro rs hsub hmem
    rcases List.mem_map.mp hmem with ⟨u, hu, hue⟩
    have h2 := (upsert_id_canonical hC hsub hu).2
    rw [hue] at h2
    exact contains_of_mem h2
  rcases mem_applyUpserts _ _ _ hp with h1 | h1
  · exact hup _ (List.drop_sublist _ _) h1
  · rcases mem_applyDeletes _ _ _ h1 with ⟨h2, hnd⟩
    rcases mem_applyUpserts _ _ _ h2 with h3 | h3
    · exact hup _ (List.take_sublist _ _) h3
    · by_cases hcon : (batch.map (fun item => item.ItemNum)).contains
          (toString p.id) = true
      · exact hcon
      · exfalso
        have hconf : (batch.map (fun item => item.ItemNum)).contains
            (toString p.id) = false := by
          simpa using hcon
        refine hnd (List.mem_filterMap.mpr ⟨p, h3, ?_⟩)
        exact staleStep_of_stale (hB p h3) hconf (hDE _)

/-! ## C8 -/

/-- C8, counterexample: with the non-canonical identifier "07" and a stored
point 7 lacking a `_hash`, the first run upserts point 7 and then deletes it
as stale; the second identical run therefore finds no stored point, classifies
the record as new, and reports updated = 1, not 0. -/
theorem C8_counterexample :
    (runProcess oraclesOK
      (runProcess oraclesOK [pointSeven] [itemOhSeven] 1).finalIndex
      [itemOhSeven] 1).updated = 1 := by
  decide

/-- C8, amended: running the engine twice on the same batch with no external
state change is idempotent — second run updated = 0 and removed = 0 —
provided the incoming identifiers are canonical decimal uint64 renderings and
pairwise distinct, the initial index ids are uint64 values, and neither run
suffers lookup, upsert, delete or embedding failures.  Every record's
recomputed hash then equals the `_hash` stored by the first run and all
surviving points belong to the batch.  Without canonical identifiers the
property fails (first run deletes what it upserted). -/
theorem C8_second_run_idempotent (o : Oracles) (idx0 : Index)
    (batch : List MBSItem) (k1 k2 : Nat)
    (hC : ∀ item ∈ batch, canonicalId item.ItemNum = true)
    (hD : (batch.map (fun item => item.ItemNum)).Nodup)
    (hB : ∀ p ∈ idx0, p.id < 2 ^ 64)
    (hLE : ∀ s, o.lookupErr s = false)
    (hUE : ∀ s, o.upsertErr s = false)
    (hDE : ∀ s, o.deleteErr s = false)
    (hEmb : ∀ t, ∃ v, o.embed t = Except.ok v) :
    (runProcess o (runProcess o idx0 batch k1).finalIndex batch k2).updated
      = 0
    ∧ (runProcess o (runProcess o idx0 batch k1).finalIndex batch k2).removed
      = 0 := by
  have hplan2 : ∀ item ∈ batch,
      planOne o (runProcess o idx0 batch k1).finalIndex item
        = PlanOutcome.unchanged := by
    intro item hit
    rcases canonicalId_parse (hC item hit) with ⟨n, hpn, _, _⟩
    rcases run1_final_hash o idx0 batch k1 hC hD hLE hUE hEmb item hit n hpn
      with ⟨q, hfq, hh⟩
    exact planOne_unchanged_intro hpn (hLE _) hfq hh
  have hjobs2 : planJobs o (runProcess o idx0 batch k1).finalIndex batch
      = [] := by
    unfold planJobs
    rw [List.filterMap_eq_nil_iff]
    intro item hit
    unfold planSelect
    rw [hplan2 item hit]
  constructor
  · rw [runProcess_updated, hjobs2]
    simp
  · rw [runProcess_removed]
    have hsd : staleDeletes o (runProcess o idx0 batch k1).finalIndex
        (batch.map (fun item => item.ItemNum)) = [] := by
      unfold staleDeletes
      rw [List.filterMap_eq_nil_iff]
      intro p hp
      unfold staleStep
      exact if_pos (run1_final_ids o idx0 batch k1 hC hB hDE hp)
    rw [hsd]
    rfl

/-- C8, witness: one canonical record "7" against an initially stale point 7:
the second run skips everything and removes nothing. -/
theorem C8_second_run_idempotent_witness :
    (runProcess oraclesOK
      (runProcess oraclesOK [pointSeven] [itemSeven] 1).finalIndex
      [itemSeven] 2).updated = 0
    ∧ (runProcess oraclesOK
      (runProcess oraclesOK [pointSeven] [itemSeven] 1).finalIndex
      [itemSeven] 2).removed = 0 :=
  C8_second_run_idempotent oraclesOK [pointSeven] [itemSeven] 1 2
    (by decide) (by decide) (by decide) (fun s => rfl) (fun s => rfl)
    (fun s => rfl) (fun t => ⟨["0.5"], rfl⟩)
